import Mathlib

/-!
# Map-reduce task graph: topology, data-request transport and controller

A shallow embedding of

* `example/topo/topo_mapreducer.go` (`MapReduceTopology`),
* `framework/frameworkhttp/data_request_handler.go` (`dataReqHandler.ServeHTTP`, `RequestData`),
* `controller/controller.go` (`New`, `Controller.Stop`, `Controller.DestroyEtcdLayout`,
  `Controller.stopFailureDetection`).

Go's `uint64` is embedded as `Nat` with every arithmetic operation reduced modulo `2^64`;
an integer division by zero (a run-time panic in Go) is the `none` of `Option`. Loops carry
a fuel argument that is set to a bound on their number of iterations.

The definitions come first, the theorems after them.
-/

namespace topo

/-! ## `uint64` arithmetic -/

/-- The number of values of a `uint64`. -/
def u64 : Nat := 2 ^ 64

/-- Go `a + b` on `uint64`. -/
def add64 (a b : Nat) : Nat := (a + b) % u64

/-- Go `a - b` on `uint64` (wraps around below zero). -/
def sub64 (a b : Nat) : Nat := (a + u64 - b % u64) % u64

/-- Go `a * b` on `uint64`. -/
def mul64 (a b : Nat) : Nat := (a * b) % u64

/-- Go `a / b` on `uint64`: panics (`none`) when `b = 0`. -/
def div64 (a b : Nat) : Option Nat := if b = 0 then none else some (a / b)

/-- Go `a % b` on `uint64`: panics (`none`) when `b = 0`. -/
def mod64 (a b : Nat) : Option Nat := if b = 0 then none else some (a % b)

/-! ## The topology -/

/-- The Go struct `MapReduceTopology`. The Go fields `prefix` and `suffix` are the
fields `prefixIDs` and `suffixIDs` here. -/
structure MapReduceTopology where
  NumOfMapper : Nat
  NumOfReducer : Nat
  NumOfShuffle : Nat
  taskID : Nat
  prefixIDs : List Nat
  suffixIDs : List Nat
  deriving DecidableEq, Repr

/-- The Go loop `for index := lo; index < hi; index++ { acc = append(acc, index) }`,
run for at most `fuel` iterations. -/
def appendLoop : Nat → Nat → Nat → List Nat → List Nat
  | 0, _, _, acc => acc
  | fuel + 1, index, hi, acc =>
    if index < hi then appendLoop fuel (add64 index 1) hi (acc ++ [index]) else acc

/-- The two loops of `SetTaskID`:
`for index := scopeL; index < scopeL + num; index++ { xs = append(xs, index) }`
starting from the empty slice. The loop body runs at most `hi - scopeL` times, which is the
fuel given. -/
def fillRange (scopeL num : Nat) : List Nat :=
  appendLoop (add64 scopeL num - scopeL) scopeL (add64 scopeL num) []

/-- The first `switch` of `SetTaskID` (lines 27-45): the pair `(numOfPrefix, scopeL)`.
When no case applies both variables keep their zero value. -/
def prefixScope (t : MapReduceTopology) (taskID shardQuotient shardReminder : Nat) :
    Option (Nat × Nat) :=
  if taskID < t.NumOfMapper then
    some (0, 0)
  else if taskID < add64 t.NumOfMapper t.NumOfShuffle then
    some (t.NumOfMapper, 0)
  else if taskID < add64 (add64 t.NumOfMapper t.NumOfShuffle) shardReminder then
    some (add64 shardQuotient 1,
      add64 t.NumOfMapper
        (mul64 (add64 shardQuotient 1) (sub64 (sub64 taskID t.NumOfMapper) t.NumOfShuffle)))
  else if taskID < add64 (add64 t.NumOfMapper t.NumOfShuffle) t.NumOfReducer then do
    let numOfPrefix ← div64 t.NumOfShuffle t.NumOfReducer
    let rem ← mod64 t.NumOfShuffle t.NumOfReducer
    let scopeL := add64 t.NumOfMapper (mul64 rem (add64 shardQuotient 1))
    some (numOfPrefix,
      add64 scopeL
        (mul64 (sub64 (sub64 (sub64 taskID t.NumOfMapper) t.NumOfShuffle) shardReminder)
          shardQuotient))
  else
    some (0, 0)

/-- The second `switch` of `SetTaskID` (lines 51-66): the pair `(numOfSuffix, scopeL)`.
`scopeL` enters with the value the first `switch` left in it. -/
def suffixScope (t : MapReduceTopology) (taskID shardQuotient shardReminder scopeL : Nat) :
    Option (Nat × Nat) :=
  if taskID < t.NumOfMapper then
    some (t.NumOfShuffle, t.NumOfMapper)
  else if taskID < add64 t.NumOfMapper t.NumOfShuffle then do
    let tmpAcc := sub64 taskID t.NumOfMapper
    let d ← div64 tmpAcc (add64 shardQuotient 1)
    if d < shardReminder then do
      let d1 ← div64 tmpAcc (add64 shardQuotient 1)
      some (1, add64 d1 t.NumOfMapper)
    else do
      let scopeL1 := sub64 tmpAcc (mul64 shardReminder (add64 shardQuotient 1))
      let d2 ← div64 scopeL1 shardQuotient
      some (1, add64 scopeL1 (add64 (add64 d2 t.NumOfMapper) shardReminder))
  else if taskID < add64 (add64 t.NumOfMapper t.NumOfShuffle) t.NumOfReducer then
    some (0, scopeL)
  else
    some (0, scopeL)

/-- Go `func (t *MapReduceTopology) SetTaskID(taskID uint64)`; `none` is a division-by-zero
panic. The source spells some identifiers inconsistently (`NumOfShuflle`, `NumberOfReduer`,
`NumberOfMapper`, `tasdID`, `shardQoutient`, `numOfsuffix`); each is read as the declared
identifier it misspells. The assignment to the undeclared `scopeR` on line 34 is never read. -/
def SetTaskID (t : MapReduceTopology) (taskID : Nat) : Option MapReduceTopology := do
  let shardQuotient ← div64 t.NumOfShuffle t.NumOfReducer
  let shardReminder ← mod64 t.NumOfShuffle t.NumOfReducer
  let (numOfPrefix, scopeL) ← prefixScope t taskID shardQuotient shardReminder
  let pre := fillRange scopeL numOfPrefix
  let (numOfSuffix, scopeL2) ← suffixScope t taskID shardQuotient shardReminder scopeL
  let suf := fillRange scopeL2 numOfSuffix
  some { t with taskID := taskID, prefixIDs := pre, suffixIDs := suf }

/-- Go `func (t *MapReduceTopology) GetNeighbors(linkType string, epoch uint64) []uint64`. -/
def GetNeighbors (t : MapReduceTopology) (linkType : String) (_epoch : Nat) : List Nat :=
  if linkType = "Prefix" then t.prefixIDs
  else if linkType = "Suffix" then t.suffixIDs
  else []

/-- Go `NewMaperTopology(nm, ns, nr)`: the topology before any `SetTaskID`. -/
def NewMaperTopology (nm ns nr : Nat) : MapReduceTopology :=
  { NumOfMapper := nm, NumOfShuffle := ns, NumOfReducer := nr,
    taskID := 0, prefixIDs := [], suffixIDs := [] }

/-- The neighbours of slot `taskID` on link `linkType`: `SetTaskID(taskID)` followed by
`GetNeighbors(linkType, epoch)`; `none` when `SetTaskID` panics. -/
def neighbors (nm ns nr taskID : Nat) (linkType : String) (epoch : Nat) : Option (List Nat) :=
  (SetTaskID (NewMaperTopology nm ns nr) taskID).map (fun t => GetNeighbors t linkType epoch)

/-! ## Closed forms and the mapping of the specification -/

/-- The slot the source puts in the suffix of the shuffler with index `j = taskID - M`
(lines 57-63), without wrap-around. -/
def shufflerSuffixSlot (M S R j : Nat) : Nat :=
  if j / (S / R + 1) < S % R then j / (S / R + 1) + M
  else (j - S % R * (S / R + 1)) + ((j - S % R * (S / R + 1)) / (S / R) + M + S % R)

/-- The first slot of the prefix of reducer `k` (lines 37, 40-41), without wrap-around. -/
def reducerPrefixStart (M S R k : Nat) : Nat :=
  if k < S % R then M + (S / R + 1) * k
  else M + S % R * (S / R + 1) + (k - S % R) * (S / R)

/-- The length of the prefix of reducer `k` (lines 36, 39). -/
def reducerPrefixLen (S R k : Nat) : Nat :=
  if k < S % R then S / R + 1 else S / R

/-- The shuffle-to-reduce mapping as the specification words it: with `q = S / R` and
`r = S mod R`, shuffler index `j` feeds reducer `j / (q+1)` if `j < r·(q+1)`, and otherwise
reducer `r + (j − r·(q+1)) / q`. -/
def specShuffleTarget (S R j : Nat) : Nat :=
  if j < S % R * (S / R + 1) then j / (S / R + 1)
  else S % R + (j - S % R * (S / R + 1)) / (S / R)

end topo

namespace frameworkhttp

/-! ## Data-request transport

A Go `string` or `[]byte` is the list of its bytes, each a `Nat` below 256. The functions
of Go's standard library that the handler and the client call (`strconv`, `net/url`) are
not among the sources; they are modelled after their implementation in the library (as of
Go 1.17: base prefixes and underscores in `ParseUint` with base 0, `&` as the only
separator of a query), for the arguments the source passes. The network between `http.Get`
and the server is the handler applied to the URL of the request. -/

/-- A Go `string` or `[]byte`. -/
abbrev GoString := List Nat

/-- The bytes of an ASCII string literal. -/
def ascii (s : String) : GoString := s.data.map Char.toNat

/-- Go `DataRequestPrefix`. -/
def DataRequestPrefix : GoString := ascii "/datareq"

/-- Go `DataRequestTaskID`. -/
def DataRequestTaskID : GoString := ascii "taskID"

/-- Go `DataRequestReq`. -/
def DataRequestReq : GoString := ascii "req"

/-- Go `DataRequestEpoch`. -/
def DataRequestEpoch : GoString := ascii "epoch"

/-! ### `strconv` -/

/-- Go `formatBits` of `strconv` for base 10, one digit per iteration (the library writes
the same digits two at a time):
`for u >= 10 { i--; a[i] = byte(u%10 + '0'); u /= 10 }; i--; a[i] = byte(u + '0')`,
the buffer `a` being the list `acc`, filled from its end. -/
def formatBits : Nat → Nat → GoString → GoString
  | 0, u, acc => (u + 48) :: acc
  | fuel + 1, u, acc =>
    if u ≥ 10 then formatBits fuel (u / 10) ((u % 10 + 48) :: acc) else (u + 48) :: acc

/-- Go `strconv.FormatUint(u, 10)`: the decimal digits of `u`. The buffer of `formatBits`
holds 65 bytes, which bounds the number of iterations. -/
def FormatUint (u : Nat) : GoString := formatBits 64 u []

/-- Go `lower(c)` of `strconv`: `c | ('x' - 'X')`. -/
def lower (c : Nat) : Nat := c ||| 32

/-- The digit loop of `strconv.ParseUint`: the state is `(n, underscores)`; `none` is a
syntax or range error. `base0` says that the base was given as 0, in which case an
underscore is skipped and remembered. -/
def parseUintLoop (base : Nat) (base0 : Bool) : GoString → Nat → Bool → Option (Nat × Bool)
  | [], n, underscores => some (n, underscores)
  | c :: cs, n, underscores =>
    if c = 95 ∧ base0 = true then parseUintLoop base base0 cs n true
    else
      let digit : Option Nat :=
        if 48 ≤ c ∧ c ≤ 57 then some (c - 48)
        else if 97 ≤ lower c ∧ lower c ≤ 122 then some (lower c - 97 + 10)
        else none
      match digit with
      | none => none
      | some d =>
        if d ≥ base then none
        else if n ≥ (2 ^ 64 - 1) / base + 1 then none
        else
          let n0 := (n * base) % 2 ^ 64
          let n1 := (n0 + d) % 2 ^ 64
          if n1 < n0 ∨ n1 > 2 ^ 64 - 1 then none
          else parseUintLoop base base0 cs n1 underscores

/-- The scanning loop of `strconv.underscoreOK`; `saw` is the class of the last byte seen:
`'^'` (94) for the beginning, `'0'` (48) for a digit or a base prefix, `'_'` (95) for an
underscore, `'!'` (33) for anything else. -/
def underscoreOKLoop (hex : Bool) : GoString → Nat → Bool
  | [], saw => saw ≠ 95
  | c :: cs, saw =>
    if (48 ≤ c ∧ c ≤ 57) ∨ (hex = true ∧ 97 ≤ lower c ∧ lower c ≤ 102) then
      underscoreOKLoop hex cs 48
    else if c = 95 then
      if saw ≠ 48 then false else underscoreOKLoop hex cs 95
    else if saw = 95 then false
    else underscoreOKLoop hex cs 33

/-- Go `strconv.underscoreOK(s)`: underscores only separate digits (or a base prefix and a
digit). -/
def underscoreOK (s : GoString) : Bool :=
  let s1 := match s with
    | c :: cs => if c = 45 ∨ c = 43 then cs else s
    | [] => s
  match s1 with
  | c0 :: c1 :: cs =>
    if c0 = 48 ∧ (lower c1 = 98 ∨ lower c1 = 111 ∨ lower c1 = 120) then
      underscoreOKLoop (decide (lower c1 = 120)) cs 48
    else underscoreOKLoop false s1 94
  | _ => underscoreOKLoop false s1 94

/-- Go `strconv.ParseUint(s, 0, 64)`; `none` is a non-nil error. With base 0 the base is
read off the prefix: `0b`, `0o`, `0x`, a leading `0` (octal), and decimal otherwise. -/
def ParseUint (s : GoString) : Option Nat :=
  match s with
  | [] => none
  | c0 :: rest =>
    let (base, digits) : Nat × GoString :=
      if c0 = 48 then
        match rest with
        | c1 :: c2 :: cs =>
          if lower c1 = 98 then (2, c2 :: cs)
          else if lower c1 = 111 then (8, c2 :: cs)
          else if lower c1 = 120 then (16, c2 :: cs)
          else (8, rest)
        | _ => (8, rest)
      else (10, s)
    match parseUintLoop base true digits 0 false with
    | none => none
    | some (n, underscores) =>
      if underscores = true ∧ underscoreOK s = false then none else some n

/-! ### `net/url` -/

/-- Go `shouldEscape(c, encodeQueryComponent)` of `net/url`: everything but letters, digits
and `-`, `_`, `.`, `~` is escaped. -/
def shouldEscape (c : Nat) : Bool :=
  if (97 ≤ c ∧ c ≤ 122) ∨ (65 ≤ c ∧ c ≤ 90) ∨ (48 ≤ c ∧ c ≤ 57) then false
  else if c = 45 ∨ c = 95 ∨ c = 46 ∨ c = 126 then false
  else true

/-- Go `upperhex[i]`, the table `"0123456789ABCDEF"`. -/
def upperhex (i : Nat) : Nat := if i < 10 then 48 + i else 55 + i

/-- Go `url.QueryEscape(s)`: a space becomes `+`, a byte to escape becomes `%XX`. -/
def QueryEscape : GoString → GoString
  | [] => []
  | c :: cs =>
    if c = 32 then 43 :: QueryEscape cs
    else if shouldEscape c then 37 :: upperhex (c >>> 4) :: upperhex (c &&& 15) :: QueryEscape cs
    else c :: QueryEscape cs

/-- Go `ishex(c)` of `net/url`. -/
def ishex (c : Nat) : Bool :=
  (48 ≤ c ∧ c ≤ 57) ∨ (97 ≤ c ∧ c ≤ 102) ∨ (65 ≤ c ∧ c ≤ 70)

/-- Go `unhex(c)` of `net/url`. -/
def unhex (c : Nat) : Nat :=
  if 48 ≤ c ∧ c ≤ 57 then c - 48
  else if 97 ≤ c ∧ c ≤ 102 then c - 97 + 10
  else if 65 ≤ c ∧ c ≤ 70 then c - 65 + 10
  else 0

/-- Go `url.QueryUnescape(s)`; `none` is an `EscapeError`: a `%` that is not followed by two
hexadecimal digits, anywhere in `s`. -/
def QueryUnescape : GoString → Option GoString
  | [] => some []
  | c :: cs =>
    if c = 37 then
      match cs with
      | a :: b :: rest =>
        if ishex a = true ∧ ishex b = true then
          (QueryUnescape rest).map (fun t => ((unhex a <<< 4) ||| unhex b) :: t)
        else none
      | _ => none
    else if c = 43 then (QueryUnescape cs).map (fun t => 32 :: t)
    else (QueryUnescape cs).map (fun t => c :: t)

/-- Go `url.Values` (`map[string][]string`), kept as the list of its `(key, value)` pairs in
the order they were added: the values of a key are its pairs, in order. -/
abbrev Values := List (GoString × GoString)

/-- Go `Values.Get(key)`: the first value of `key`, or `""`. -/
def Values.Get : Values → GoString → GoString
  | [], _ => []
  | (k, v) :: rest, key => if k = key then v else Values.Get rest key

/-- Go `Values.Add(key, value)`: append `value` to the values of `key`. -/
def Values.Add (m : Values) (key value : GoString) : Values := m ++ [(key, value)]

/-- Go's order on strings, `a < b`: bytewise lexicographic. -/
def strLt : GoString → GoString → Bool
  | _, [] => false
  | [], _ :: _ => true
  | a :: as, b :: bs => if a < b then true else if b < a then false else strLt as bs

/-- Insertion of a pair into a list of pairs sorted by key, before the pairs of the same
key. -/
def insertByKey (p : GoString × GoString) : Values → Values
  | [] => [p]
  | q :: rest => if strLt q.1 p.1 then q :: insertByKey p rest else p :: q :: rest

/-- The pairs ordered by key (the sorted keys of `Encode`), the values of a key keeping the
order in which they were added: a pair goes before the pairs of its key added after it. -/
def sortByKey : Values → Values
  | [] => []
  | p :: rest => insertByKey p (sortByKey rest)

/-- The writes of `Values.Encode` into its buffer: `&` before every pair but the first,
then `QueryEscape(key)=QueryEscape(value)`. -/
def encodePairs : Values → GoString
  | [] => []
  | [(k, v)] => QueryEscape k ++ 61 :: QueryEscape v
  | (k, v) :: rest => QueryEscape k ++ 61 :: QueryEscape v ++ 38 :: encodePairs rest

/-- Go `Values.Encode()`: `key=value` pairs joined by `&`, sorted by key. -/
def Values.Encode (m : Values) : GoString := encodePairs (sortByKey m)

/-- Go `strings.Cut(s, sep)` for a one-byte separator: the part before the first byte
satisfying `sep` and, when there is such a byte, the part after it. -/
def cutAt (sep : Nat → Bool) : GoString → GoString × Option GoString
  | [] => ([], none)
  | c :: cs =>
    if sep c then ([], some cs)
    else ((cutAt sep cs).1.cons c, (cutAt sep cs).2)

/-- The loop of `parseQuery(m, query)` of `net/url`, run for at most `fuel` iterations:
cut the next `key=value` setting off the query at `&`; skip it when it holds a `;`, when it
is empty or when one half does not unescape; else append the value to the key's values. -/
def parseQueryLoop : Nat → GoString → Values → Values
  | 0, _, m => m
  | fuel + 1, query, m =>
    if query = [] then m
    else
      let key := (cutAt (fun c => c = 38) query).1
      let query1 := ((cutAt (fun c => c = 38) query).2).getD []
      if 59 ∈ key then parseQueryLoop fuel query1 m
      else if key = [] then parseQueryLoop fuel query1 m
      else
        let value := ((cutAt (fun c => c = 61) key).2).getD []
        let key1 := (cutAt (fun c => c = 61) key).1
        match QueryUnescape key1 with
        | none => parseQueryLoop fuel query1 m
        | some key2 =>
          match QueryUnescape value with
          | none => parseQueryLoop fuel query1 m
          | some value1 => parseQueryLoop fuel query1 (Values.Add m key2 value1)

/-- Go `URL.Query()`: `ParseQuery(u.RawQuery)` with the error dropped. Every iteration of the
loop shortens a non-empty query, so `len(query) + 1` iterations are enough. -/
def Query (rawQuery : GoString) : Values := parseQueryLoop (rawQuery.length + 1) rawQuery []

/-! ### The handler and the client -/

/-- Go `url.URL`, the fields the source sets. -/
structure URL where
  Scheme : GoString
  Host : GoString
  Path : GoString
  RawQuery : GoString
  deriving DecidableEq, Repr

/-- What `ServeHTTP` has done when it is left: the response written (status code and body),
or a panic raised by `logger.Panic` with its message. -/
inductive Served where
  | response (status : Nat) (body : GoString)
  | panicked (msg : String)
  deriving DecidableEq, Repr

/-- The run of `ServeHTTP` on one request: the calls of `getData` it made, in order, each
with its three arguments, and how it ended. -/
structure Handled where
  calls : List (Nat × Nat × GoString)
  served : Served
  deriving DecidableEq, Repr

/-- Go `type getDataFunc func(uint64, uint64, string) ([]byte, error)`; `none` is a non-nil
error. -/
abbrev getDataFunc := Nat → Nat → GoString → Option GoString

/-- Go `func (h *dataReqHandler) ServeHTTP(w http.ResponseWriter, r *http.Request)`, on the
request's `r.URL`. `http.Error(w, "bad path", 400)` writes status 400 and the message with
a newline; the first `w.Write(b)` sends status 200 and then `b`. -/
def ServeHTTP (getData : getDataFunc) (u : URL) : Handled :=
  if u.Path ≠ DataRequestPrefix then
    { calls := [], served := .response 400 (ascii "bad path\n") }
  else
    let q := Query u.RawQuery
    let fromIDStr := Values.Get q DataRequestTaskID
    match ParseUint fromIDStr with
    | none => { calls := [], served := .panicked "Internal error: fromID couldn't be parsed" }
    | some fromID =>
      let epochStr := Values.Get q DataRequestEpoch
      match ParseUint epochStr with
      | none => { calls := [], served := .panicked "Internal error: epoch couldn't be parsed" }
      | some epoch =>
        let req := Values.Get q DataRequestReq
        match getData fromID epoch req with
        | none => { calls := [(fromID, epoch, req)], served := .panicked "unimplemented" }
        | some b => { calls := [(fromID, epoch, req)], served := .response 200 b }

/-- Go `DataResponse`. -/
structure DataResponse where
  TaskID : Nat
  Epoch : Nat
  Req : GoString
  Data : GoString
  deriving DecidableEq, Repr

/-- The URL `RequestData` builds (lines 69-78): scheme `http`, host `addr`, path
`/datareq`, and the encoded query of `taskID`, `req` and `epoch`. -/
def requestURL (addr req : GoString) (fromID epoch : Nat) : URL :=
  let q : Values := []
  let q := Values.Add q DataRequestTaskID (FormatUint fromID)
  let q := Values.Add q DataRequestReq req
  let q := Values.Add q DataRequestEpoch (FormatUint epoch)
  { Scheme := ascii "http", Host := addr, Path := DataRequestPrefix, RawQuery := Values.Encode q }

/-- Go `RequestData(addr, req, from, to, epoch, logger)` (`from` is `fromID`, `to` is `toID`), the server at `addr` being a
handler `serve` that receives the URL of the request. `none` is a `logger.Fatalf`: the
`http.Get` failed (the handler panicked and the connection was closed without a response)
or the status code is not 200. -/
def RequestData (serve : URL → Handled) (addr req : GoString) (fromID toID epoch : Nat) :
    Option DataResponse :=
  match (serve (requestURL addr req fromID epoch)).served with
  | .panicked _ => none
  | .response status body =>
    if status ≠ 200 then none
    else some { TaskID := toID, Epoch := epoch, Req := req, Data := body }

/-- One `key=value` setting of an encoded query. -/
def setting (p : GoString × GoString) : GoString := QueryEscape p.1 ++ 61 :: QueryEscape p.2

end frameworkhttp

namespace controller

/-! ## The controller

The coordination store is a map from keys to values. A key is the list of the segments of
its path, so that the root `/` is the empty list and `<job>/epoch` is `[job, "epoch"]`.
The store client `*etcd.Client` is an external library: the one method that `Stop` reaches
is a field of `Client`, so that a client may do to the store, and report, anything. The
failure detector runs concurrently and is not modelled: `Stop` meets it only through the
channel `failDetectStop`. -/

/-- A key of the coordination store. -/
abbrev Key := List String

/-- The coordination store: the keys present, each with its value. -/
abbrev Store := List (Key × String)

/-- The value stored at `key`, if `key` is present. -/
def Store.get : Store → Key → Option String
  | [], _ => none
  | (k, v) :: rest, key => if k = key then some v else Store.get rest key

/-- A non-nil Go `error`, by its message. -/
abbrev Error := String

/-- The store client `*etcd.Client` as far as `Stop` uses it: `Delete(key, recursive)` acts
on the store and returns an error or nil (the response it returns as well is dropped on
line 62). -/
structure Client where
  Delete : Store → Key → Bool → Store × Option Error

/-- Modelled from the spec: the store operation `DeleteRecursive(prefix)` of §6. It removes
every key under `pfx`, `pfx` included. -/
def Store.DeleteRecursive (s : Store) (pfx : Key) : Store :=
  s.filter (fun p => ¬ pfx <+: p.1)

/-- Modelled from the spec: a store client whose recursive delete is the
`DeleteRecursive(prefix)` of §6 and reports no error. A delete that is not recursive, which
the source never issues and the spec does not describe, removes the one key. -/
def specClient : Client :=
  { Delete := fun s key recursive =>
      if recursive then (Store.DeleteRecursive s key, none)
      else (s.filter (fun p => p.1 ≠ key), none) }

/-- Modelled from the spec: the keys of a job are the keys under `<job>/` (§4.2, §6); the
path helpers of `etcdutil` that build them are not part of the sources at hand. -/
def underJob (name : String) (key : Key) : Prop := [name] <+: key

instance (name : String) (key : Key) : Decidable (underJob name key) :=
  inferInstanceAs (Decidable ([name] <+: key))

/-- A Go channel of `bool` that is not nil: its capacity and the values sent and not yet
received, oldest first. -/
structure Chan where
  cap : Nat
  buf : List Bool
  deriving DecidableEq, Repr

/-- Go `make(chan bool, cap)`, as on line 67 with capacity 1. -/
def makeChan (cap : Nat) : Chan := { cap := cap, buf := [] }

/-- How a send on a channel goes when no receiver is waiting. -/
inductive Sent where
  | stored (ch : Chan)
  | blockedNil
  | blockedFull
  deriving DecidableEq, Repr

/-- Go `ch <- v` with no receiver waiting: a send on a nil channel blocks forever; with room
in the buffer the value is stored and the send returns; with a full buffer (or capacity 0)
the send blocks until a receiver takes a value. The first two do not depend on what a
receiver does meanwhile. -/
def send (ch : Option Chan) (v : Bool) : Sent :=
  match ch with
  | none => Sent.blockedNil
  | some ch =>
    if ch.buf.length < ch.cap then Sent.stored { ch with buf := ch.buf ++ [v] }
    else Sent.blockedFull

/-- What a method has done to the outside, in order. -/
inductive Effect where
  | storeDelete (key : Key) (recursive : Bool)
  | stopSignal
  deriving DecidableEq, Repr

/-- The state outside the controller: the store behind `etcdclient`, and the effects so far,
oldest first. -/
structure World where
  store : Store
  effects : List Effect
  deriving DecidableEq, Repr

/-- Go `Controller`. The `logger` is left out; `failDetectStop` is `none` for the nil
channel. -/
structure Controller where
  name : String
  etcdclient : Client
  numOfTasks : Nat
  failDetectStop : Option Chan

/-- Go `New(name, etcd, numOfTasks)`: `failDetectStop` keeps its zero value, nil. -/
def New (name : String) (etcd : Client) (numOfTasks : Nat) : Controller :=
  { name := name, etcdclient := etcd, numOfTasks := numOfTasks, failDetectStop := none }

/-- How a call ends: it returns its `error` (`none` for nil), or it does not return: blocked
forever on a nil channel, or blocked on a full channel until a receiver takes a value. -/
inductive Outcome where
  | returned (err : Option Error)
  | blockedForever
  | blockedUntilReceive
  deriving DecidableEq, Repr

/-- The controller and the world when a call has returned, or where it is blocked. -/
structure Run where
  controller : Controller
  world : World
  outcome : Outcome

/-- Go `func (c *Controller) DestroyEtcdLayout() error`:
`_, err := c.etcdclient.Delete("/", true); return err`. -/
def DestroyEtcdLayout (c : Controller) (w : World) : World × Option Error :=
  let r := c.etcdclient.Delete w.store [] true
  ({ store := r.1, effects := w.effects ++ [Effect.storeDelete [] true] }, r.2)

/-- Go `func (c *Controller) stopFailureDetection() error`:
`c.failDetectStop <- true; return nil`. -/
def stopFailureDetection (c : Controller) (w : World) : Run :=
  match send c.failDetectStop true with
  | Sent.stored ch =>
    { controller := { c with failDetectStop := some ch },
      world := { w with effects := w.effects ++ [Effect.stopSignal] },
      outcome := Outcome.returned none }
  | Sent.blockedNil => { controller := c, world := w, outcome := Outcome.blockedForever }
  | Sent.blockedFull => { controller := c, world := w, outcome := Outcome.blockedUntilReceive }

/-- Go `func (c *Controller) Stop() error`: `c.DestroyEtcdLayout()`, whose error is
discarded, then `c.stopFailureDetection()`, whose error is discarded, then `return nil`. -/
def Stop (c : Controller) (w : World) : Run :=
  let destroyed := DestroyEtcdLayout c w
  let stopped := stopFailureDetection c destroyed.1
  match stopped.outcome with
  | Outcome.returned _ => { stopped with outcome := Outcome.returned none }
  | Outcome.blockedForever => stopped
  | Outcome.blockedUntilReceive => stopped

end controller

/-! # Theorems -/

namespace topo

/-! ## Arithmetic without wrap-around -/

theorem add64_eq {a b : Nat} (h : a + b < u64) : add64 a b = a + b := by
  unfold add64; exact Nat.mod_eq_of_lt h

theorem sub64_eq {a b : Nat} (hb : b ≤ a) (ha : a < u64) : sub64 a b = a - b := by
  unfold sub64
  have hb' : b % u64 = b := Nat.mod_eq_of_lt (lt_of_le_of_lt hb ha)
  rw [hb']
  have : a + u64 - b = (a - b) + u64 := by omega
  rw [this, Nat.add_mod_right]
  exact Nat.mod_eq_of_lt (by omega)

theorem mul64_eq {a b : Nat} (h : a * b < u64) : mul64 a b = a * b := by
  unfold mul64; exact Nat.mod_eq_of_lt h

theorem div64_pos {a b : Nat} (h : 0 < b) : div64 a b = some (a / b) := by
  unfold div64; rw [if_neg (by omega)]

theorem mod64_pos {a b : Nat} (h : 0 < b) : mod64 a b = some (a % b) := by
  unfold mod64; rw [if_neg (by omega)]

theorem appendLoop_eq (hi : Nat) (hhi : hi < u64) :
    ∀ (fuel index : Nat) (acc : List Nat), hi - index ≤ fuel →
      appendLoop fuel index hi acc = acc ++ List.range' index (hi - index) := by
  intro fuel
  induction fuel with
  | zero =>
    intro index acc h
    have h0 : hi - index = 0 := by omega
    simp [appendLoop, h0]
  | succ n ih =>
    intro index acc h
    unfold appendLoop
    by_cases hlt : index < hi
    · rw [if_pos hlt, add64_eq (by omega), ih (index + 1) (acc ++ [index]) (by omega)]
      have hs : hi - index = (hi - (index + 1)) + 1 := by omega
      rw [hs, List.range'_succ]
      simp
    · rw [if_neg hlt]
      have h0 : hi - index = 0 := by omega
      simp [h0]

theorem fillRange_eq {scopeL num : Nat} (h : scopeL + num < u64) :
    fillRange scopeL num = List.range' scopeL num := by
  unfold fillRange
  rw [add64_eq h, appendLoop_eq (scopeL + num) h _ _ _ (le_refl _)]
  simp

theorem fillRange_zero (scopeL : Nat) : fillRange scopeL 0 = [] := by
  unfold fillRange
  have hle : add64 scopeL 0 ≤ scopeL := by
    unfold add64; exact Nat.mod_le _ _
  have h0 : add64 scopeL 0 - scopeL = 0 := by omega
  rw [h0]; rfl

/-! ## Closed forms of `SetTaskID` on each layer -/

/-- The facts about `q = S / R` and `r = S % R` used throughout. -/
theorem shard_facts (S R : Nat) (hR : 1 ≤ R) :
    S % R < R ∧ R * (S / R) + S % R = S ∧ S % R * (S / R + 1) ≤ S ∧ S / R ≤ S := by
  have h1 : S % R < R := Nat.mod_lt _ (by omega)
  have h2 : R * (S / R) + S % R = S := Nat.div_add_mod S R
  have h3 : S % R * (S / R) ≤ R * (S / R) := Nat.mul_le_mul_right _ (le_of_lt h1)
  refine ⟨h1, h2, ?_, Nat.div_le_self _ _⟩
  rw [Nat.mul_add, Nat.mul_one]
  omega

theorem SetTaskID_mapper (t : MapReduceTopology) (taskID : Nat)
    (hR : 1 ≤ t.NumOfReducer)
    (hsum : t.NumOfMapper + t.NumOfShuffle + t.NumOfReducer < u64)
    (h : taskID < t.NumOfMapper) :
    SetTaskID t taskID = some
      { t with
        taskID := taskID, prefixIDs := [],
        suffixIDs := List.range' t.NumOfMapper t.NumOfShuffle } := by
  unfold SetTaskID
  rw [div64_pos hR, mod64_pos hR]
  simp only [Option.bind_eq_bind, Option.some_bind, prefixScope, suffixScope, if_pos h]
  rw [fillRange_zero, fillRange_eq (by omega)]

/-- In the `else` branch of the shuffler suffix the quotient is positive, the subtraction
does not wrap and the computed slot stays below `M + S + R`. -/
theorem shuffler_else_core (q r R S j : Nat) (h1 : r < R) (h2 : R * q + r = S) (hj : j < S)
    (hels : ¬ j / (q + 1) < r) :
    1 ≤ q ∧ r * (q + 1) ≤ j ∧ (j - r * (q + 1)) / q + r < R := by
  have hle : r * (q + 1) ≤ j := by
    have : r ≤ j / (q + 1) := by omega
    exact (Nat.le_div_iff_mul_le (by omega)).mp this
  have hq : 1 ≤ q := by
    by_contra hq
    have hq0 : q = 0 := by omega
    subst hq0
    simp only [Nat.mul_zero, Nat.zero_add, Nat.mul_one] at hle h2
    omega
  refine ⟨hq, hle, ?_⟩
  have hlt : (j - r * (q + 1)) / q < R - r := by
    rw [Nat.div_lt_iff_lt_mul (by omega)]
    have e : (R - r) * q = R * q - r * q := Nat.sub_mul _ _ _
    have e2 : r * (q + 1) = r * q + r := Nat.mul_succ _ _
    have h5 : r * q ≤ R * q := Nat.mul_le_mul_right _ (le_of_lt h1)
    omega
  omega

theorem SetTaskID_shuffler (t : MapReduceTopology) (taskID : Nat)
    (hR : 1 ≤ t.NumOfReducer)
    (hsum : t.NumOfMapper + t.NumOfShuffle + t.NumOfReducer < u64)
    (hlo : t.NumOfMapper ≤ taskID) (hhi : taskID < t.NumOfMapper + t.NumOfShuffle) :
    SetTaskID t taskID = some
      { t with
        taskID := taskID, prefixIDs := List.range' 0 t.NumOfMapper,
        suffixIDs := [shufflerSuffixSlot t.NumOfMapper t.NumOfShuffle t.NumOfReducer
          (taskID - t.NumOfMapper)] } := by
  obtain ⟨M, R, S, tid, p, s⟩ := t
  simp only at hR hsum hlo hhi ⊢
  obtain ⟨h1, h2, h3, h4⟩ := shard_facts S R hR
  have hj : taskID - M < S := by omega
  have hnm : ¬ taskID < M := by omega
  have e1 : add64 M S = M + S := add64_eq (by omega)
  have e2 : sub64 taskID M = taskID - M := sub64_eq hlo (by omega)
  have e3 : add64 (S / R) 1 = S / R + 1 := add64_eq (by omega)
  have e4 : div64 (taskID - M) (S / R + 1) = some ((taskID - M) / (S / R + 1)) :=
    div64_pos (Nat.succ_pos _)
  have e5 : fillRange 0 M = List.range' 0 M := fillRange_eq (by omega)
  unfold SetTaskID
  rw [div64_pos hR, mod64_pos hR]
  simp only [Option.bind_eq_bind, Option.some_bind, prefixScope, suffixScope, hnm, if_false,
    e1, hhi, if_true, e2, e3, e4, e5]
  unfold shufflerSuffixSlot
  by_cases hb : (taskID - M) / (S / R + 1) < S % R
  · have hd : (taskID - M) / (S / R + 1) ≤ taskID - M := Nat.div_le_self _ _
    have e6 : add64 ((taskID - M) / (S / R + 1)) M = (taskID - M) / (S / R + 1) + M :=
      add64_eq (by omega)
    have e7 : fillRange ((taskID - M) / (S / R + 1) + M) 1
        = List.range' ((taskID - M) / (S / R + 1) + M) 1 := fillRange_eq (by omega)
    simp only [hb, if_true, Option.some_bind, e6, e7]
    rfl
  · obtain ⟨hq, hle, hlt⟩ := shuffler_else_core _ _ _ _ _ h1 h2 hj hb
    have e6 : mul64 (S % R) (S / R + 1) = S % R * (S / R + 1) := mul64_eq (by omega)
    have e7 : sub64 (taskID - M) (S % R * (S / R + 1)) = taskID - M - S % R * (S / R + 1) :=
      sub64_eq hle (by omega)
    have e8 : div64 (taskID - M - S % R * (S / R + 1)) (S / R)
        = some ((taskID - M - S % R * (S / R + 1)) / (S / R)) := div64_pos hq
    have e9 : add64 ((taskID - M - S % R * (S / R + 1)) / (S / R)) M
        = (taskID - M - S % R * (S / R + 1)) / (S / R) + M := add64_eq (by omega)
    have e10 : add64 ((taskID - M - S % R * (S / R + 1)) / (S / R) + M) (S % R)
        = (taskID - M - S % R * (S / R + 1)) / (S / R) + M + S % R := add64_eq (by omega)
    have e11 : add64 (taskID - M - S % R * (S / R + 1))
          ((taskID - M - S % R * (S / R + 1)) / (S / R) + M + S % R)
        = (taskID - M - S % R * (S / R + 1))
          + ((taskID - M - S % R * (S / R + 1)) / (S / R) + M + S % R) := add64_eq (by omega)
    have e12 : fillRange ((taskID - M - S % R * (S / R + 1))
          + ((taskID - M - S % R * (S / R + 1)) / (S / R) + M + S % R)) 1
        = List.range' ((taskID - M - S % R * (S / R + 1))
          + ((taskID - M - S % R * (S / R + 1)) / (S / R) + M + S % R)) 1 :=
      fillRange_eq (by omega)
    simp only [hb, if_false, Option.some_bind, e6, e7, e8, e9, e10, e11, e12]
    rfl

/-- The block of reducer `k` lies inside the shuffler range. -/
theorem reducer_block_core (q r R S k : Nat) (h1 : r < R) (h2 : R * q + r = S) (hk : k < R) :
    (k < r → (q + 1) * k + (q + 1) ≤ r * (q + 1)) ∧
    (r ≤ k → r * (q + 1) + (k - r) * q + q ≤ S) ∧ r * (q + 1) ≤ S := by
  have e2 : r * (q + 1) = r * q + r := Nat.mul_succ _ _
  have h5 : r * q ≤ R * q := Nat.mul_le_mul_right _ (le_of_lt h1)
  refine ⟨?_, ?_, by omega⟩
  · intro hk
    have : (k + 1) * (q + 1) ≤ r * (q + 1) := Nat.mul_le_mul_right _ hk
    have e : (k + 1) * (q + 1) = (q + 1) * k + (q + 1) := by ring
    omega
  · intro hk'
    have : (k - r + 1) * q ≤ (R - r) * q := Nat.mul_le_mul_right _ (by omega)
    have e : (k - r + 1) * q = (k - r) * q + q := Nat.succ_mul _ _
    have e3 : (R - r) * q = R * q - r * q := Nat.sub_mul _ _ _
    omega

theorem SetTaskID_reducer (t : MapReduceTopology) (taskID : Nat)
    (hR : 1 ≤ t.NumOfReducer)
    (hsum : t.NumOfMapper + t.NumOfShuffle + t.NumOfReducer < u64)
    (hlo : t.NumOfMapper + t.NumOfShuffle ≤ taskID)
    (hhi : taskID < t.NumOfMapper + t.NumOfShuffle + t.NumOfReducer) :
    SetTaskID t taskID = some
      { t with
        taskID := taskID,
        prefixIDs := List.range'
          (reducerPrefixStart t.NumOfMapper t.NumOfShuffle t.NumOfReducer
            (taskID - t.NumOfMapper - t.NumOfShuffle))
          (reducerPrefixLen t.NumOfShuffle t.NumOfReducer
            (taskID - t.NumOfMapper - t.NumOfShuffle)),
        suffixIDs := [] } := by
  obtain ⟨M, R, S, tid, p, s⟩ := t
  simp only at hR hsum hlo hhi ⊢
  obtain ⟨h1, h2, h3, h4⟩ := shard_facts S R hR
  obtain ⟨hb1, hb2, hb3⟩ := reducer_block_core (S / R) (S % R) R S (taskID - M - S) h1 h2
    (by omega)
  have hnm : ¬ taskID < M := by omega
  have hns : ¬ taskID < M + S := by omega
  have e1 : add64 M S = M + S := add64_eq (by omega)
  have e2 : add64 (M + S) (S % R) = M + S + S % R := add64_eq (by omega)
  have e3 : add64 (M + S) R = M + S + R := add64_eq (by omega)
  have e4 : add64 (S / R) 1 = S / R + 1 := add64_eq (by omega)
  have e5 : sub64 taskID M = taskID - M := sub64_eq (by omega) (by omega)
  have e6 : sub64 (taskID - M) S = taskID - M - S := sub64_eq (by omega) (by omega)
  unfold SetTaskID
  rw [div64_pos hR, mod64_pos hR]
  simp only [Option.bind_eq_bind, Option.some_bind, prefixScope, suffixScope, hnm, if_false,
    e1, e2, e3, e4, e5, e6, hns, hhi, if_true, ite_self, fillRange_zero]
  unfold reducerPrefixStart reducerPrefixLen
  by_cases hb : taskID < M + S + S % R
  · have hk : taskID - M - S < S % R := by omega
    have hb1' := hb1 hk
    have e7 : mul64 (S / R + 1) (taskID - M - S) = (S / R + 1) * (taskID - M - S) :=
      mul64_eq (by omega)
    have e8 : add64 M ((S / R + 1) * (taskID - M - S)) = M + (S / R + 1) * (taskID - M - S) :=
      add64_eq (by omega)
    have e9 : fillRange (M + (S / R + 1) * (taskID - M - S)) (S / R + 1)
        = List.range' (M + (S / R + 1) * (taskID - M - S)) (S / R + 1) :=
      fillRange_eq (by omega)
    simp only [hb, hk, if_true, Option.some_bind, e7, e8, e9]
  · have hk : ¬ taskID - M - S < S % R := by omega
    have hb2' := hb2 (by omega)
    have e7 : mul64 (S % R) (S / R + 1) = S % R * (S / R + 1) := mul64_eq (by omega)
    have e8 : add64 M (S % R * (S / R + 1)) = M + S % R * (S / R + 1) := add64_eq (by omega)
    have e9 : sub64 (taskID - M - S) (S % R) = taskID - M - S - S % R :=
      sub64_eq (by omega) (by omega)
    have e10 : mul64 (taskID - M - S - S % R) (S / R) = (taskID - M - S - S % R) * (S / R) :=
      mul64_eq (by omega)
    have e11 : add64 (M + S % R * (S / R + 1)) ((taskID - M - S - S % R) * (S / R))
        = M + S % R * (S / R + 1) + (taskID - M - S - S % R) * (S / R) := add64_eq (by omega)
    have e12 : fillRange (M + S % R * (S / R + 1) + (taskID - M - S - S % R) * (S / R)) (S / R)
        = List.range' (M + S % R * (S / R + 1) + (taskID - M - S - S % R) * (S / R)) (S / R) :=
      fillRange_eq (by omega)
    simp only [hb, hk, if_false, Option.some_bind, e7, e8, e9, e10, e11, e12, div64_pos hR,
      mod64_pos hR]

theorem SetTaskID_beyond (t : MapReduceTopology) (taskID : Nat)
    (hR : 1 ≤ t.NumOfReducer)
    (hsum : t.NumOfMapper + t.NumOfShuffle + t.NumOfReducer < u64)
    (hlo : t.NumOfMapper + t.NumOfShuffle + t.NumOfReducer ≤ taskID) :
    SetTaskID t taskID = some { t with taskID := taskID, prefixIDs := [], suffixIDs := [] } := by
  obtain ⟨M, R, S, tid, p, s⟩ := t
  simp only at hR hsum hlo ⊢
  obtain ⟨h1, h2, h3, h4⟩ := shard_facts S R hR
  have hnm : ¬ taskID < M := by omega
  have hns : ¬ taskID < M + S := by omega
  have hnr : ¬ taskID < M + S + S % R := by omega
  have hnR : ¬ taskID < M + S + R := by omega
  have e1 : add64 M S = M + S := add64_eq (by omega)
  have e2 : add64 (M + S) (S % R) = M + S + S % R := add64_eq (by omega)
  have e3 : add64 (M + S) R = M + S + R := add64_eq (by omega)
  unfold SetTaskID
  rw [div64_pos hR, mod64_pos hR]
  simp only [Option.bind_eq_bind, Option.some_bind, prefixScope, suffixScope, hnm, if_false,
    e1, e2, e3, hns, hnr, hnR, fillRange_zero]

/-! ## Neighbours of each layer -/

theorem SetTaskID_isSome (t : MapReduceTopology) (taskID : Nat)
    (hR : 1 ≤ t.NumOfReducer)
    (hsum : t.NumOfMapper + t.NumOfShuffle + t.NumOfReducer < u64) :
    ∃ t1, SetTaskID t taskID = some t1 := by
  by_cases h1 : taskID < t.NumOfMapper
  · exact ⟨_, SetTaskID_mapper t taskID hR hsum h1⟩
  · by_cases h2 : taskID < t.NumOfMapper + t.NumOfShuffle
    · exact ⟨_, SetTaskID_shuffler t taskID hR hsum (by omega) h2⟩
    · by_cases h3 : taskID < t.NumOfMapper + t.NumOfShuffle + t.NumOfReducer
      · exact ⟨_, SetTaskID_reducer t taskID hR hsum (by omega) h3⟩
      · exact ⟨_, SetTaskID_beyond t taskID hR hsum (by omega)⟩

theorem neighbors_other (M S R i e : Nat) (linkType : String) (hR : 1 ≤ R)
    (hsum : M + S + R < u64) (hp : linkType ≠ "Prefix") (hs : linkType ≠ "Suffix") :
    neighbors M S R i linkType e = some [] := by
  obtain ⟨t1, h⟩ := SetTaskID_isSome (NewMaperTopology M S R) i hR hsum
  unfold neighbors
  rw [h]
  simp [GetNeighbors, hp, hs]

theorem neighbors_mapper (M S R i e : Nat) (hR : 1 ≤ R) (hsum : M + S + R < u64)
    (h : i < M) :
    neighbors M S R i "Prefix" e = some [] ∧
      neighbors M S R i "Suffix" e = some (List.range' M S) := by
  unfold neighbors
  rw [SetTaskID_mapper (NewMaperTopology M S R) i hR hsum h]
  simp [GetNeighbors, NewMaperTopology]

theorem neighbors_shuffler (M S R i e : Nat) (hR : 1 ≤ R) (hsum : M + S + R < u64)
    (hlo : M ≤ i) (hhi : i < M + S) :
    neighbors M S R i "Prefix" e = some (List.range' 0 M) ∧
      neighbors M S R i "Suffix" e = some [shufflerSuffixSlot M S R (i - M)] := by
  unfold neighbors
  rw [SetTaskID_shuffler (NewMaperTopology M S R) i hR hsum hlo hhi]
  simp [GetNeighbors, NewMaperTopology]

theorem neighbors_reducer (M S R i e : Nat) (hR : 1 ≤ R) (hsum : M + S + R < u64)
    (hlo : M + S ≤ i) (hhi : i < M + S + R) :
    neighbors M S R i "Prefix" e
        = some (List.range' (reducerPrefixStart M S R (i - M - S))
            (reducerPrefixLen S R (i - M - S))) ∧
      neighbors M S R i "Suffix" e = some [] := by
  unfold neighbors
  rw [SetTaskID_reducer (NewMaperTopology M S R) i hR hsum hlo hhi]
  simp [GetNeighbors, NewMaperTopology]

/-- The prefix block of reducer `k` lies inside the shuffler range `[M, M + S)`. -/
theorem reducer_block_range (M S R k : Nat) (hR : 1 ≤ R) (hk : k < R) :
    M ≤ reducerPrefixStart M S R k ∧
      reducerPrefixStart M S R k + reducerPrefixLen S R k ≤ M + S := by
  obtain ⟨h1, h2, h3, h4⟩ := shard_facts S R hR
  obtain ⟨hb1, hb2, hb3⟩ := reducer_block_core (S / R) (S % R) R S k h1 h2 hk
  unfold reducerPrefixStart reducerPrefixLen
  by_cases hb : k < S % R
  · have := hb1 hb
    simp only [hb, if_true]
    omega
  · have := hb2 (by omega)
    simp only [hb, if_false]
    omega

/-- The slot in a shuffler's suffix is below `M + S + R`. -/
theorem shufflerSuffixSlot_lt (M S R j : Nat) (hR : 1 ≤ R) (hj : j < S) :
    shufflerSuffixSlot M S R j < M + S + R := by
  obtain ⟨h1, h2, h3, h4⟩ := shard_facts S R hR
  unfold shufflerSuffixSlot
  by_cases hb : j / (S / R + 1) < S % R
  · have hd : j / (S / R + 1) ≤ j := Nat.div_le_self _ _
    simp only [hb, if_true]
    omega
  · obtain ⟨hq, hle, hlt⟩ := shuffler_else_core _ _ _ _ _ h1 h2 hj hb
    simp only [hb, if_false]
    omega

/-! ## The claims on the topology -/

/-- C4: for `R ≥ 1` and `M + S + R` representable in `uint64`, for every slot
`i < M + S + R`, every epoch and every link type string, `SetTaskID(i)` returns and every
element of `GetNeighbors(linkType, epoch)` is below `M + S + R`. -/
theorem neighbors_lt_numTasks (M S R i e : Nat) (linkType : String) (hR : 1 ≤ R)
    (hsum : M + S + R < u64) (hi : i < M + S + R) :
    ∃ ns, neighbors M S R i linkType e = some ns ∧ ∀ n ∈ ns, n < M + S + R := by
  by_cases hp : linkType = "Prefix"
  · subst hp
    by_cases h1 : i < M
    · exact ⟨_, (neighbors_mapper M S R i e hR hsum h1).1, by simp⟩
    · by_cases h2 : i < M + S
      · refine ⟨_, (neighbors_shuffler M S R i e hR hsum (by omega) h2).1, ?_⟩
        intro n hn
        rw [List.mem_range'_1] at hn
        omega
      · refine ⟨_, (neighbors_reducer M S R i e hR hsum (by omega) hi).1, ?_⟩
        intro n hn
        rw [List.mem_range'_1] at hn
        have := reducer_block_range M S R (i - M - S) hR (by omega)
        omega
  · by_cases hs : linkType = "Suffix"
    · subst hs
      by_cases h1 : i < M
      · refine ⟨_, (neighbors_mapper M S R i e hR hsum h1).2, ?_⟩
        intro n hn
        rw [List.mem_range'_1] at hn
        omega
      · by_cases h2 : i < M + S
        · refine ⟨_, (neighbors_shuffler M S R i e hR hsum (by omega) h2).2, ?_⟩
          intro n hn
          rw [List.mem_singleton] at hn
          rw [hn]
          exact shufflerSuffixSlot_lt M S R (i - M) hR (by omega)
        · exact ⟨_, (neighbors_reducer M S R i e hR hsum (by omega) hi).2, by simp⟩
    · exact ⟨_, neighbors_other M S R i e linkType hR hsum hp hs, by simp⟩

/-- A witness of C4 on the topology `M = 2, S = 3, R = 2`, shuffler slot 4. -/
theorem neighbors_lt_numTasks_witness :
    ∃ ns, neighbors 2 3 2 4 "Suffix" 0 = some ns ∧ ∀ n ∈ ns, n < 2 + 3 + 2 :=
  neighbors_lt_numTasks 2 3 2 4 0 "Suffix" (by decide) (by decide) (by decide)

/-- C10: for `R ≥ 1` and `M + S + R` representable in `uint64`, `SetTaskID` does not divide
by zero for any `taskID`: it returns; the divisor `shardQuotient + 1` is not zero; and the
branch that divides by `shardQuotient` (the shuffler case whose test
`tmpAcc / (shardQuotient + 1) < shardReminder` fails) is only entered when `S / R ≥ 1`. -/
theorem SetTaskID_no_division_by_zero (t : MapReduceTopology) (taskID : Nat)
    (hR : 1 ≤ t.NumOfReducer)
    (hsum : t.NumOfMapper + t.NumOfShuffle + t.NumOfReducer < u64) :
    (∃ t1, SetTaskID t taskID = some t1) ∧
    add64 (t.NumOfShuffle / t.NumOfReducer) 1 ≠ 0 ∧
    (∀ d, ¬ taskID < t.NumOfMapper → taskID < add64 t.NumOfMapper t.NumOfShuffle →
      div64 (sub64 taskID t.NumOfMapper) (add64 (t.NumOfShuffle / t.NumOfReducer) 1) = some d →
      ¬ d < t.NumOfShuffle % t.NumOfReducer → 1 ≤ t.NumOfShuffle / t.NumOfReducer) := by
  obtain ⟨h1, h2, h3, h4⟩ := shard_facts t.NumOfShuffle t.NumOfReducer hR
  have e3 : add64 (t.NumOfShuffle / t.NumOfReducer) 1 = t.NumOfShuffle / t.NumOfReducer + 1 :=
    add64_eq (by omega)
  refine ⟨SetTaskID_isSome t taskID hR hsum, by rw [e3]; exact Nat.succ_ne_zero _, ?_⟩
  intro d hnm hlt hd hnd
  rw [add64_eq (by omega)] at hlt
  rw [e3, sub64_eq (by omega) (by omega), div64_pos (Nat.succ_pos _)] at hd
  have hd' : (taskID - t.NumOfMapper) / (t.NumOfShuffle / t.NumOfReducer + 1) = d := by
    simpa using hd
  rw [← hd'] at hnd
  exact (shuffler_else_core _ _ _ _ _ h1 h2 (by omega) hnd).1

/-- A witness of C10: fewer shufflers than reducers (`S / R = 0`), on a shuffler slot. -/
theorem SetTaskID_no_division_by_zero_witness :
    (∃ t1, SetTaskID (NewMaperTopology 1 2 3) 2 = some t1) ∧
    add64 ((NewMaperTopology 1 2 3).NumOfShuffle / (NewMaperTopology 1 2 3).NumOfReducer) 1 ≠ 0 ∧
    (∀ d, ¬ 2 < (NewMaperTopology 1 2 3).NumOfMapper →
      2 < add64 (NewMaperTopology 1 2 3).NumOfMapper (NewMaperTopology 1 2 3).NumOfShuffle →
      div64 (sub64 2 (NewMaperTopology 1 2 3).NumOfMapper)
        (add64 ((NewMaperTopology 1 2 3).NumOfShuffle / (NewMaperTopology 1 2 3).NumOfReducer) 1)
        = some d →
      ¬ d < (NewMaperTopology 1 2 3).NumOfShuffle % (NewMaperTopology 1 2 3).NumOfReducer →
      1 ≤ (NewMaperTopology 1 2 3).NumOfShuffle / (NewMaperTopology 1 2 3).NumOfReducer) :=
  SetTaskID_no_division_by_zero (NewMaperTopology 1 2 3) 2 (by decide) (by decide)

/-! ## Lists of consecutive slots -/

/-- Consecutive blocks of `c` slots, `n` of them, starting at `a`, concatenate to one
range. -/
theorem flatten_blocks (a c : Nat) :
    ∀ n, ((List.range n).map (fun k => List.range' (a + c * k) c)).flatten
      = List.range' a (c * n) := by
  intro n
  induction n with
  | zero => simp
  | succ n ih =>
    rw [List.range_succ, List.map_append, List.flatten_append, ih]
    simp only [List.map_cons, List.map_nil, List.flatten_cons, List.flatten_nil,
      List.append_nil]
    rw [List.range'_append_1, Nat.mul_succ, Nat.add_comm c]

/-- The prefixes of all reducers, in reducer order, concatenate to the shuffler range. -/
theorem flatten_reducer_blocks (M S R : Nat) (hR : 1 ≤ R) :
    ((List.range R).map (fun k =>
        List.range' (reducerPrefixStart M S R k) (reducerPrefixLen S R k))).flatten
      = List.range' M S := by
  obtain ⟨h1, h2, h3, h4⟩ := shard_facts S R hR
  have hsplit : R = S % R + (R - S % R) := by omega
  have hA : (List.range (S % R)).map (fun k =>
        List.range' (reducerPrefixStart M S R k) (reducerPrefixLen S R k))
      = (List.range (S % R)).map (fun k => List.range' (M + (S / R + 1) * k) (S / R + 1)) := by
    apply List.map_congr_left
    intro k hk
    rw [List.mem_range] at hk
    simp only [reducerPrefixStart, reducerPrefixLen, hk, if_true]
  have hB : (List.range (R - S % R)).map (fun k =>
        List.range' (reducerPrefixStart M S R (S % R + k)) (reducerPrefixLen S R (S % R + k)))
      = (List.range (R - S % R)).map
          (fun k => List.range' (M + S % R * (S / R + 1) + S / R * k) (S / R)) := by
    apply List.map_congr_left
    intro k _
    have hk : ¬ S % R + k < S % R := by omega
    have e : S % R + k - S % R = k := by omega
    simp only [reducerPrefixStart, reducerPrefixLen, hk, if_false, e, Nat.mul_comm k]
  have hlen : (S / R + 1) * (S % R) + S / R * (R - S % R) = S := by
    have e1 : S / R * (R - S % R) = S / R * R - S / R * (S % R) := Nat.mul_sub _ _ _
    have e2 : (S / R + 1) * (S % R) = S / R * (S % R) + S % R := by ring
    have e3 : S / R * (S % R) ≤ S / R * R := Nat.mul_le_mul_left _ (le_of_lt h1)
    have e4 : S / R * R = R * (S / R) := Nat.mul_comm _ _
    omega
  have hr : List.range R
      = List.range (S % R) ++ (List.range (R - S % R)).map (fun x => S % R + x) := by
    rw [← List.range_add]
    exact congrArg List.range hsplit
  rw [hr, List.map_append, List.flatten_append, List.map_map]
  have hB' : ((fun k => List.range' (reducerPrefixStart M S R k) (reducerPrefixLen S R k))
      ∘ fun x => S % R + x)
      = fun k => List.range' (reducerPrefixStart M S R (S % R + k))
          (reducerPrefixLen S R (S % R + k)) := rfl
  rw [hB', hA, hB, flatten_blocks, flatten_blocks]
  have e5 : M + S % R * (S / R + 1) = M + (S / R + 1) * (S % R) := by ring
  rw [e5, List.range'_append_1, Nat.add_comm (S / R * (R - S % R)), hlen]

/-- Filtering a range by membership in an interval inside it yields the interval. -/
theorem filter_range_interval (n lo len : Nat) (h : lo + len ≤ n) :
    (List.range n).filter (fun j => decide (lo ≤ j ∧ j < lo + len)) = List.range' lo len := by
  have e1 : List.range' lo len ++ List.range' (lo + len) (n - (lo + len))
      = List.range' lo (n - lo) := by
    rw [List.range'_append_1]
    congr 1
    omega
  have e0 : List.range' 0 lo ++ List.range' lo (n - lo) = List.range' 0 n := by
    have e := List.range'_append_1 0 lo (n - lo)
    rw [Nat.zero_add] at e
    rw [e]
    congr 1
    omega
  rw [List.range_eq_range', ← e0, ← e1]
  simp only [List.filter_append]
  have hL : (List.range' 0 lo).filter (fun j => decide (lo ≤ j ∧ j < lo + len)) = [] := by
    rw [List.filter_eq_nil_iff]
    intro a ha
    rw [List.mem_range'_1] at ha
    simp only [decide_eq_true_eq]
    omega
  have hM : (List.range' lo len).filter (fun j => decide (lo ≤ j ∧ j < lo + len))
      = List.range' lo len := by
    rw [List.filter_eq_self]
    intro a ha
    rw [List.mem_range'_1] at ha
    simp only [decide_eq_true_eq]
    omega
  have hT : (List.range' (lo + len) (n - (lo + len))).filter
      (fun j => decide (lo ≤ j ∧ j < lo + len)) = [] := by
    rw [List.filter_eq_nil_iff]
    intro a ha
    rw [List.mem_range'_1] at ha
    simp only [decide_eq_true_eq]
    omega
  rw [hL, hM, hT]
  simp

theorem div_eq_iff_bounds (a b c : Nat) (hb : 0 < b) :
    a / b = c ↔ c * b ≤ a ∧ a < c * b + b := by
  constructor
  · intro h
    have e1 := Nat.div_add_mod a b
    have e2 := Nat.mod_lt a hb
    rw [h, Nat.mul_comm] at e1
    omega
  · rintro ⟨h1, h2⟩
    have e : (c + 1) * b = c * b + b := Nat.succ_mul _ _
    have u : a / b < c + 1 := (Nat.div_lt_iff_lt_mul hb).mpr (by omega)
    have l : c ≤ a / b := (Nat.le_div_iff_mul_le hb).mpr h1
    omega

/-- The shufflers the specification's mapping sends to reducer `k` are those of the
block the source gives reducer `k`. -/
theorem target_core (q r R S k j : Nat) (h1 : r < R) (h2 : R * q + r = S) (hk : k < R)
    (hj : j < S) :
    (if j < r * (q + 1) then j / (q + 1) else r + (j - r * (q + 1)) / q) = k ↔
      (if k < r then (q + 1) * k else r * (q + 1) + (k - r) * q) ≤ j ∧
      j < (if k < r then (q + 1) * k else r * (q + 1) + (k - r) * q)
        + (if k < r then q + 1 else q) := by
  obtain ⟨hb1, hb2, hb3⟩ := reducer_block_core q r R S k h1 h2 hk
  by_cases hA : j < r * (q + 1)
  · have hdiv : j / (q + 1) < r := (Nat.div_lt_iff_lt_mul (Nat.succ_pos _)).mpr hA
    by_cases hkr : k < r
    · simp only [hA, hkr, if_true]
      rw [div_eq_iff_bounds _ _ _ (Nat.succ_pos _), Nat.mul_comm k]
    · simp only [hA, hkr, if_true, if_false]
      constructor
      · intro h
        omega
      · rintro ⟨h3, h4⟩
        omega
  · by_cases hkr : k < r
    · have := hb1 hkr
      simp only [hA, hkr, if_true, if_false]
      constructor
      · intro h
        have h5 : r ≤ k := h ▸ Nat.le_add_right _ _
        omega
      · rintro ⟨h3, h4⟩
        omega
    · have hq : 0 < q := by
        by_contra hq
        have hq0 : q = 0 := by omega
        subst hq0
        simp only [Nat.mul_zero, Nat.zero_add, Nat.mul_one, Nat.add_zero] at hA h2
        omega
      simp only [hA, hkr, if_false]
      have e : ∀ d : Nat, r + d = k ↔ d = k - r := by
        intro d
        omega
      rw [e, div_eq_iff_bounds _ _ _ hq]
      omega

theorem specShuffleTarget_eq_iff (M S R k j : Nat) (hR : 1 ≤ R) (hk : k < R) (hj : j < S) :
    specShuffleTarget S R j = k ↔
      reducerPrefixStart M S R k ≤ M + j ∧
      M + j < reducerPrefixStart M S R k + reducerPrefixLen S R k := by
  obtain ⟨h1, h2, h3, h4⟩ := shard_facts S R hR
  have h := target_core (S / R) (S % R) R S k j h1 h2 hk hj
  unfold specShuffleTarget reducerPrefixStart reducerPrefixLen
  rw [h]
  by_cases hkr : k < S % R
  · simp only [hkr, if_true]
    omega
  · simp only [hkr, if_false]
    omega

/-- The prefix block of reducer `k` is the list of the shuffler slots `M + j` whose
target under the specification's mapping is `k`. -/
theorem reducer_block_eq_filter (M S R k : Nat) (hR : 1 ≤ R) (hk : k < R) :
    List.range' (reducerPrefixStart M S R k) (reducerPrefixLen S R k)
      = ((List.range S).filter (fun j => decide (specShuffleTarget S R j = k))).map
          (fun j => M + j) := by
  obtain ⟨hlo, hhi⟩ := reducer_block_range M S R k hR hk
  have hc : (List.range S).filter (fun j => decide (specShuffleTarget S R j = k))
      = (List.range S).filter (fun j => decide (reducerPrefixStart M S R k - M ≤ j ∧
          j < (reducerPrefixStart M S R k - M) + reducerPrefixLen S R k)) := by
    apply List.filter_congr
    intro j hj
    rw [List.mem_range] at hj
    rw [decide_eq_decide, specShuffleTarget_eq_iff M S R k j hR hk hj]
    omega
  rw [hc, filter_range_interval _ _ _ (by omega), List.range'_eq_map_range,
    List.range'_eq_map_range (reducerPrefixStart M S R k - M), List.map_map]
  apply List.map_congr_left
  intro a _
  simp only [Function.comp]
  omega

/-- C2: for `R ≥ 1` and `M + S + R` representable in `uint64`, `SetTaskID` followed by
`GetNeighbors("Prefix", e)` returns for every reducer slot `M + S + k`, `k < R`; every element
of such a prefix is a shuffler slot in `[M, M + S)`; and every shuffler slot occurs exactly
once in the concatenation of the prefixes of all reducers. -/
theorem reducer_prefixes_partition (M S R e : Nat) (hR : 1 ≤ R) (hsum : M + S + R < u64) :
    ∃ ps : List (List Nat),
      (List.range R).map (fun k => neighbors M S R (M + S + k) "Prefix" e) = ps.map some ∧
      (∀ p ∈ ps, ∀ s ∈ p, M ≤ s ∧ s < M + S) ∧
      (∀ s, M ≤ s → s < M + S → ps.flatten.count s = 1) := by
  refine ⟨(List.range R).map (fun k =>
    List.range' (reducerPrefixStart M S R k) (reducerPrefixLen S R k)), ?_, ?_, ?_⟩
  · rw [List.map_map]
    apply List.map_congr_left
    intro k hk
    rw [List.mem_range] at hk
    have h := (neighbors_reducer M S R (M + S + k) e hR hsum (by omega) (by omega)).1
    have ek : M + S + k - M - S = k := by omega
    rw [ek] at h
    simp only [Function.comp, h]
  · intro p hp s hs
    rw [List.mem_map] at hp
    obtain ⟨k, hk, rfl⟩ := hp
    rw [List.mem_range] at hk
    rw [List.mem_range'_1] at hs
    have := reducer_block_range M S R k hR hk
    omega
  · intro s hlo hhi
    rw [flatten_reducer_blocks M S R hR]
    exact List.count_eq_one_of_mem (List.nodup_range' M S) (List.mem_range'_1.mpr ⟨hlo, hhi⟩)

/-- A witness of C2 on the topology `M = 2, S = 3, R = 2`. -/
theorem reducer_prefixes_partition_witness :
    ∃ ps : List (List Nat),
      (List.range 2).map (fun k => neighbors 2 3 2 (2 + 3 + k) "Prefix" 0) = ps.map some ∧
      (∀ p ∈ ps, ∀ s ∈ p, 2 ≤ s ∧ s < 2 + 3) ∧
      (∀ s, 2 ≤ s → s < 2 + 3 → ps.flatten.count s = 1) :=
  reducer_prefixes_partition 2 3 2 0 (by decide) (by decide)

/-- C5: for `R ≥ 1` and `M + S + R` representable in `uint64`, the prefix of reducer slot
`M + S + k`, `k < R`, is the list of the shuffler slots `M + j` (`j < S`, in increasing order)
whose target under the specification's shuffle-to-reduce mapping is `k`; it is a run of
consecutive slots, strictly increasing, of length `q + 1` if `k < r` and `q` otherwise; and
the prefix lengths of two reducers differ by at most one. -/
theorem reducer_prefix_inverse (M S R k e : Nat) (hR : 1 ≤ R) (hsum : M + S + R < u64)
    (hk : k < R) :
    ∃ p, neighbors M S R (M + S + k) "Prefix" e = some p ∧
      p = ((List.range S).filter (fun j => decide (specShuffleTarget S R j = k))).map
          (fun j => M + j) ∧
      (∃ start, p = List.range' start p.length) ∧
      List.Pairwise (fun a b => a < b) p ∧
      p.length = (if k < S % R then S / R + 1 else S / R) ∧
      (∀ k2 p2, k2 < R → neighbors M S R (M + S + k2) "Prefix" e = some p2 →
        p.length ≤ p2.length + 1 ∧ p2.length ≤ p.length + 1) := by
  have hn : ∀ k1, k1 < R → neighbors M S R (M + S + k1) "Prefix" e
      = some (List.range' (reducerPrefixStart M S R k1) (reducerPrefixLen S R k1)) := by
    intro k1 hk1
    have h := (neighbors_reducer M S R (M + S + k1) e hR hsum (by omega) (by omega)).1
    have ek : M + S + k1 - M - S = k1 := by omega
    rw [ek] at h
    exact h
  refine ⟨List.range' (reducerPrefixStart M S R k) (reducerPrefixLen S R k), hn k hk,
    reducer_block_eq_filter M S R k hR hk, ⟨reducerPrefixStart M S R k, ?_⟩,
    List.pairwise_lt_range' _ _, ?_, ?_⟩
  · rw [List.length_range']
  · rw [List.length_range']
    rfl
  · intro k2 p2 hk2 hp2
    rw [hn k2 hk2] at hp2
    have e2 : p2 = List.range' (reducerPrefixStart M S R k2) (reducerPrefixLen S R k2) := by
      simpa using hp2.symm
    rw [e2, List.length_range', List.length_range']
    unfold reducerPrefixLen
    split_ifs <;> omega

/-- A witness of C5 on the topology `M = 2, S = 3, R = 2`, reducer 0. -/
theorem reducer_prefix_inverse_witness :
    ∃ p, neighbors 2 3 2 (2 + 3 + 0) "Prefix" 0 = some p ∧
      p = ((List.range 3).filter (fun j => decide (specShuffleTarget 3 2 j = 0))).map
          (fun j => 2 + j) ∧
      (∃ start, p = List.range' start p.length) ∧
      List.Pairwise (fun a b => a < b) p ∧
      p.length = (if 0 < 3 % 2 then 3 / 2 + 1 else 3 / 2) ∧
      (∀ k2 p2, k2 < 2 → neighbors 2 3 2 (2 + 3 + k2) "Prefix" 0 = some p2 →
        p.length ≤ p2.length + 1 ∧ p2.length ≤ p.length + 1) :=
  reducer_prefix_inverse 2 3 2 0 0 (by decide) (by decide) (by decide)

/-- On every shuffler the slot the source computes differs from the slot
`M + S + target` of the specification. -/
theorem shufflerSuffixSlot_ne_spec (M S R j : Nat) (hR : 1 ≤ R) (hj : j < S) :
    shufflerSuffixSlot M S R j ≠ M + S + specShuffleTarget S R j := by
  obtain ⟨h1, h2, h3, h4⟩ := shard_facts S R hR
  unfold shufflerSuffixSlot specShuffleTarget
  by_cases hb : j / (S / R + 1) < S % R
  · have hA : j < S % R * (S / R + 1) := (Nat.div_lt_iff_lt_mul (Nat.succ_pos _)).mp hb
    simp only [hb, hA, if_true]
    omega
  · have hA : ¬ j < S % R * (S / R + 1) := fun h =>
      hb ((Nat.div_lt_iff_lt_mul (Nat.succ_pos _)).mpr h)
    simp only [hb, hA, if_false]
    generalize (j - S % R * (S / R + 1)) / (S / R) = d
    omega

/-- C1, at the shuffler slot 2 of the topology `M = 2, S = 3, R = 2`: the specification's
suffix is `[M + S + target] = [5]`, while `SetTaskID(2)` leaves `[2]` in the suffix: both
branches of lines 58-63 add `NumOfMapper` (and, in the second, the offset inside the block)
where the reducer's slot needs `NumOfMapper + NumOfShuffle`. -/
theorem shuffler_suffix_at_slot_2 :
    neighbors 2 3 2 2 "Suffix" 0 = some [2] ∧
      [2 + 3 + specShuffleTarget 3 2 (2 - 2)] = [5] ∧
      neighbors 2 3 2 3 "Suffix" 0 = some [2] ∧
      neighbors 2 3 2 4 "Suffix" 0 = some [3] := by
  decide

/-- C3, at the shuffler slot 2 of the topology `M = 2, S = 3, R = 2`: the suffix computed by
`SetTaskID(2)` contains slot 2 itself. -/
theorem shuffler_suffix_contains_self :
    ∃ ns, neighbors 2 3 2 2 "Suffix" 0 = some ns ∧ 2 ∈ ns :=
  ⟨[2], by decide, by decide⟩

/-- C6 as stated fails on `M = 2, S = 3, R = 2`: the conjunction of the neighbour lists it
gives is not what `SetTaskID` computes (reducer 0 receives the first two shufflers, not
one). -/
theorem mapreduce_example_as_stated_fails :
    ¬ (neighbors 2 3 2 5 "Prefix" 0 = some [2] ∧
       neighbors 2 3 2 6 "Prefix" 0 = some [3, 4] ∧
       neighbors 2 3 2 2 "Suffix" 0 = some [5] ∧
       neighbors 2 3 2 3 "Suffix" 0 = some [6] ∧
       neighbors 2 3 2 4 "Suffix" 0 = some [6] ∧
       neighbors 2 3 2 0 "Suffix" 0 = some [2, 3, 4] ∧
       neighbors 2 3 2 1 "Suffix" 0 = some [2, 3, 4] ∧
       neighbors 2 3 2 0 "Prefix" 0 = some [] ∧
       neighbors 2 3 2 1 "Prefix" 0 = some []) := by
  decide

/-- C6 amended: on `M = 2, S = 3, R = 2` (`q = 1`, `r = 1`), at every epoch, reducer 0
(slot 5) has `Prefix = [2, 3]` and reducer 1 (slot 6) has `Prefix = [4]`; each mapper
(slots 0 and 1) has `Suffix = [2, 3, 4]` and an empty `Prefix`. -/
theorem mapreduce_example (e : Nat) :
    neighbors 2 3 2 5 "Prefix" e = some [2, 3] ∧
    neighbors 2 3 2 6 "Prefix" e = some [4] ∧
    neighbors 2 3 2 0 "Suffix" e = some [2, 3, 4] ∧
    neighbors 2 3 2 1 "Suffix" e = some [2, 3, 4] ∧
    neighbors 2 3 2 0 "Prefix" e = some [] ∧
    neighbors 2 3 2 1 "Prefix" e = some [] :=
  ⟨rfl, rfl, rfl, rfl, rfl, rfl⟩

end topo

namespace frameworkhttp

/-! ## Escaping round trip -/

set_option maxRecDepth 100000 in
theorem hexpair_roundtrip :
    ∀ c, c < 256 → ishex (upperhex (c >>> 4)) = true ∧ ishex (upperhex (c &&& 15)) = true ∧
      ((unhex (upperhex (c >>> 4)) <<< 4) ||| unhex (upperhex (c &&& 15))) = c := by
  decide

theorem shouldEscape_false_ne (c : Nat) (h : shouldEscape c = false) : c ≠ 37 ∧ c ≠ 43 ∧
    c ≠ 38 ∧ c ≠ 59 ∧ c ≠ 61 ∧ c ≠ 32 := by
  unfold shouldEscape at h
  split_ifs at h with h1 h2
  · omega
  · omega

theorem QueryUnescape_QueryEscape (s : GoString) (hs : ∀ b ∈ s, b < 256) :
    QueryUnescape (QueryEscape s) = some s := by
  induction s with
  | nil => rfl
  | cons c cs ih =>
    have ih' := ih (fun b hb => hs b (List.mem_cons_of_mem _ hb))
    have hc : c < 256 := hs c (List.mem_cons_self _ _)
    unfold QueryEscape
    by_cases h32 : c = 32
    · rw [if_pos h32]
      unfold QueryUnescape
      rw [if_neg (by decide), if_pos rfl, ih', h32]
      rfl
    · rw [if_neg h32]
      by_cases hesc : shouldEscape c = true
      · obtain ⟨g1, g2, g3⟩ := hexpair_roundtrip c hc
        rw [if_pos hesc]
        unfold QueryUnescape
        rw [if_pos rfl]
        simp only [g1, g2, and_self, if_true, ih', Option.map_some', g3]
      · have hesc' : shouldEscape c = false := by simpa using hesc
        obtain ⟨n37, n43, _⟩ := shouldEscape_false_ne c hesc'
        rw [if_neg hesc]
        unfold QueryUnescape
        rw [if_neg n37, if_neg n43, ih']
        rfl

theorem upperhex_ne (i : Nat) : upperhex i ≠ 38 ∧ upperhex i ≠ 59 ∧ upperhex i ≠ 61 := by
  unfold upperhex
  split_ifs <;> omega

/-- An escaped string holds none of the separators `&`, `;`, `=`. -/
theorem QueryEscape_no_sep (s : GoString) :
    ∀ x ∈ QueryEscape s, x ≠ 38 ∧ x ≠ 59 ∧ x ≠ 61 := by
  induction s with
  | nil => intro x hx; simp [QueryEscape] at hx
  | cons c cs ih =>
    intro x hx
    unfold QueryEscape at hx
    by_cases h32 : c = 32
    · rw [if_pos h32] at hx
      rcases List.mem_cons.mp hx with h | h
      · omega
      · exact ih x h
    · rw [if_neg h32] at hx
      by_cases hesc : shouldEscape c = true
      · rw [if_pos hesc] at hx
        rcases List.mem_cons.mp hx with h | h
        · omega
        · rcases List.mem_cons.mp h with h | h
          · rw [h]; exact upperhex_ne _
          · rcases List.mem_cons.mp h with h | h
            · rw [h]; exact upperhex_ne _
            · exact ih x h
      · have hesc' : shouldEscape c = false := by simpa using hesc
        obtain ⟨_, _, n38, n59, n61, _⟩ := shouldEscape_false_ne c hesc'
        rw [if_neg hesc] at hx
        rcases List.mem_cons.mp hx with h | h
        · omega
        · exact ih x h

/-! ## Cutting at a separator -/

theorem cutAt_append (sep : Nat → Bool) (a : GoString) (c : Nat) (rest : GoString)
    (ha : ∀ x ∈ a, sep x = false) (hc : sep c = true) :
    cutAt sep (a ++ c :: rest) = (a, some rest) := by
  induction a with
  | nil => simp [cutAt, hc]
  | cons x xs ih =>
    have hx : sep x = false := ha x (List.mem_cons_self _ _)
    have ih' := ih (fun y hy => ha y (List.mem_cons_of_mem _ hy))
    rw [List.cons_append, cutAt, ih']
    simp [hx]

theorem cutAt_none (sep : Nat → Bool) (a : GoString) (ha : ∀ x ∈ a, sep x = false) :
    cutAt sep a = (a, none) := by
  induction a with
  | nil => rfl
  | cons x xs ih =>
    have hx : sep x = false := ha x (List.mem_cons_self _ _)
    have ih' := ih (fun y hy => ha y (List.mem_cons_of_mem _ hy))
    rw [cutAt, ih']
    simp [hx]

/-! ## Parsing an encoded query -/

theorem parseQueryLoop_nil (fuel : Nat) (m : Values) : parseQueryLoop fuel [] m = m := by
  cases fuel <;> simp [parseQueryLoop]

theorem setting_no_sep (p : GoString × GoString) : ∀ x ∈ setting p, x ≠ 38 ∧ x ≠ 59 := by
  intro x hx
  unfold setting at hx
  rcases List.mem_append.mp hx with h | h
  · have := QueryEscape_no_sep p.1 x h
    omega
  · rcases List.mem_cons.mp h with h | h
    · omega
    · have := QueryEscape_no_sep p.2 x h
      omega

theorem setting_no_amp (p : GoString × GoString) :
    ∀ x ∈ setting p, (decide (x = 38)) = false := by
  intro x hx
  have := setting_no_sep p x hx
  simp only [decide_eq_false_iff_not]
  omega

theorem setting_no_semicolon (p : GoString × GoString) : ¬ 59 ∈ setting p := by
  intro h
  have := setting_no_sep p 59 h
  omega

theorem setting_cut_eq (p : GoString × GoString) :
    cutAt (fun c => decide (c = 61)) (setting p) = (QueryEscape p.1, some (QueryEscape p.2)) := by
  unfold setting
  apply cutAt_append
  · intro x hx
    have := QueryEscape_no_sep p.1 x hx
    simp only [decide_eq_false_iff_not]
    omega
  · rfl

theorem setting_ne_nil (p : GoString × GoString) : setting p ≠ [] := by
  unfold setting
  simp

/-- The step of the loop on a setting that is followed by `&`. -/
theorem parseQueryLoop_setting_amp (fuel : Nat) (p : GoString × GoString) (rest : GoString)
    (m : Values) (h1 : ∀ b ∈ p.1, b < 256) (h2 : ∀ b ∈ p.2, b < 256) :
    parseQueryLoop (fuel + 1) (setting p ++ 38 :: rest) m
      = parseQueryLoop fuel rest (m ++ [p]) := by
  have hcut : cutAt (fun c => decide (c = 38)) (setting p ++ 38 :: rest)
      = (setting p, some rest) := cutAt_append _ _ _ _ (setting_no_amp p) rfl
  have hne : setting p ++ 38 :: rest ≠ [] := by simp
  rw [parseQueryLoop]
  simp only [hne, if_false, hcut, Option.getD_some, setting_ne_nil, setting_cut_eq,
    setting_no_semicolon, QueryUnescape_QueryEscape _ h1, QueryUnescape_QueryEscape _ h2,
    Values.Add]

/-- The step of the loop on the last setting. -/
theorem parseQueryLoop_setting_last (fuel : Nat) (p : GoString × GoString)
    (m : Values) (h1 : ∀ b ∈ p.1, b < 256) (h2 : ∀ b ∈ p.2, b < 256) :
    parseQueryLoop (fuel + 1) (setting p) m = m ++ [p] := by
  have hcut : cutAt (fun c => decide (c = 38)) (setting p)
      = (setting p, none) := cutAt_none _ _ (setting_no_amp p)
  rw [parseQueryLoop]
  simp only [setting_ne_nil, if_false, hcut, Option.getD_none, setting_cut_eq,
    setting_no_semicolon, Option.getD_some, QueryUnescape_QueryEscape _ h1,
    QueryUnescape_QueryEscape _ h2, Values.Add, parseQueryLoop_nil]

theorem encodePairs_cons_cons (p q : GoString × GoString) (rest : Values) :
    encodePairs (p :: q :: rest) = setting p ++ 38 :: encodePairs (q :: rest) := by
  obtain ⟨k, v⟩ := p
  simp [encodePairs, setting]

theorem encodePairs_single (p : GoString × GoString) : encodePairs [p] = setting p := by
  obtain ⟨k, v⟩ := p
  simp [encodePairs, setting]

/-- Parsing the encoding of a list of pairs appends the pairs, in order. -/
theorem parseQueryLoop_encodePairs (ps : Values) :
    ∀ (fuel : Nat) (m : Values), ps.length ≤ fuel →
      (∀ p ∈ ps, (∀ b ∈ p.1, b < 256) ∧ (∀ b ∈ p.2, b < 256)) →
      parseQueryLoop fuel (encodePairs ps) m = m ++ ps := by
  induction ps with
  | nil =>
    intro fuel m _ _
    simp [encodePairs, parseQueryLoop_nil]
  | cons p rest ih =>
    intro fuel m hfuel hb
    obtain ⟨hp1, hp2⟩ := hb p (List.mem_cons_self _ _)
    have hrest : ∀ q ∈ rest, (∀ b ∈ q.1, b < 256) ∧ (∀ b ∈ q.2, b < 256) :=
      fun q hq => hb q (List.mem_cons_of_mem _ hq)
    obtain ⟨f, rfl⟩ : ∃ f, fuel = f + 1 := ⟨fuel - 1, by simp at hfuel; omega⟩
    cases rest with
    | nil => rw [encodePairs_single, parseQueryLoop_setting_last f p m hp1 hp2]
    | cons q rest2 =>
      rw [encodePairs_cons_cons, parseQueryLoop_setting_amp f p _ m hp1 hp2,
        ih f (m ++ [p]) (by simp at hfuel ⊢; omega) hrest]
      simp

theorem length_le_encodePairs (ps : Values) : ps.length ≤ (encodePairs ps).length + 1 := by
  induction ps with
  | nil => simp
  | cons p rest ih =>
    cases rest with
    | nil => simp
    | cons q rest2 =>
      rw [encodePairs_cons_cons]
      simp only [List.length_cons, List.length_append] at ih ⊢
      omega

/-- Parsing an encoded query gives back its pairs. -/
theorem Query_encodePairs (ps : Values)
    (hb : ∀ p ∈ ps, (∀ b ∈ p.1, b < 256) ∧ (∀ b ∈ p.2, b < 256)) :
    Query (encodePairs ps) = ps := by
  unfold Query
  rw [parseQueryLoop_encodePairs ps _ [] (length_le_encodePairs ps) hb]
  rfl

/-! ## Decimal round trip -/

theorem parseUintLoop_digit (d n : Nat) (cs : GoString) (us : Bool) (hd : d < 10)
    (hn : n * 10 + d < 2 ^ 64) :
    parseUintLoop 10 true ((d + 48) :: cs) n us = parseUintLoop 10 true cs (n * 10 + d) us := by
  have h95 : ¬ (d + 48 = 95) := by omega
  have hdig : 48 ≤ d + 48 ∧ d + 48 ≤ 57 := by omega
  have hcut : ¬ n ≥ (2 ^ 64 - 1) / 10 + 1 := by omega
  have e0 : n * 10 % 2 ^ 64 = n * 10 := Nat.mod_eq_of_lt (by omega)
  have e1 : (n * 10 + d) % 2 ^ 64 = n * 10 + d := Nat.mod_eq_of_lt hn
  have hov : ¬ (n * 10 + d < n * 10 ∨ n * 10 + d > 2 ^ 64 - 1) := by omega
  rw [parseUintLoop]
  simp only [h95, false_and, if_false, hdig, and_self, if_true, Nat.add_sub_cancel, ge_iff_le,
    Nat.not_le.mpr hd, hcut, e0, e1, hov]

theorem parseUintLoop_formatBits (fuel : Nat) :
    ∀ (u : Nat) (acc : GoString), u < 10 ^ (fuel + 1) → u < 2 ^ 64 →
      parseUintLoop 10 true (formatBits fuel u acc) 0 false
        = parseUintLoop 10 true acc u false := by
  induction fuel with
  | zero =>
    intro u acc h10 _
    have hu : u < 10 := by simpa using h10
    rw [formatBits, parseUintLoop_digit u 0 acc false hu (by omega)]
    simp
  | succ f ih =>
    intro u acc h10 h64
    rw [formatBits]
    by_cases hu : u ≥ 10
    · have hdiv : u / 10 < 10 ^ (f + 1) := by
        rw [Nat.div_lt_iff_lt_mul (by omega)]
        rw [pow_succ] at h10
        exact h10
      have hmod : u % 10 < 10 := Nat.mod_lt _ (by omega)
      have hsum : u / 10 * 10 + u % 10 = u := Nat.div_add_mod' u 10
      rw [if_pos hu, ih (u / 10) _ hdiv (by omega),
        parseUintLoop_digit (u % 10) (u / 10) acc false hmod (by omega), hsum]
    · rw [if_neg hu, parseUintLoop_digit u 0 acc false (by omega) (by omega)]
      simp

theorem formatBits_head (fuel : Nat) :
    ∀ (u : Nat) (acc : GoString), 1 ≤ u → u < 10 ^ (fuel + 1) →
      ∃ c0 rest, formatBits fuel u acc = c0 :: rest ∧ c0 ≠ 48 := by
  induction fuel with
  | zero =>
    intro u acc h1 _
    exact ⟨u + 48, acc, rfl, by omega⟩
  | succ f ih =>
    intro u acc h1 h10
    rw [formatBits]
    by_cases hu : u ≥ 10
    · have hdiv : u / 10 < 10 ^ (f + 1) := by
        rw [Nat.div_lt_iff_lt_mul (by omega)]
        rw [pow_succ] at h10
        exact h10
      have hpos : 1 ≤ u / 10 := (Nat.le_div_iff_mul_le (by omega)).mpr (by omega)
      rw [if_pos hu]
      exact ih (u / 10) _ hpos hdiv
    · rw [if_neg hu]
      exact ⟨u + 48, acc, rfl, by omega⟩

/-- The decimal string of a `uint64` parses back to the number. -/
theorem ParseUint_FormatUint (u : Nat) (hu : u < 2 ^ 64) : ParseUint (FormatUint u) = some u := by
  have h10 : u < 10 ^ (64 + 1) := lt_trans hu (by norm_num)
  by_cases h0 : u = 0
  · subst h0
    decide
  · obtain ⟨c0, rest, hs, hc0⟩ := formatBits_head 64 u [] (by omega) h10
    have hp := parseUintLoop_formatBits 64 u [] h10 hu
    unfold FormatUint at *
    rw [hs] at hp
    rw [hs]
    unfold ParseUint
    simp only [hc0, if_false, hp, parseUintLoop]
    simp

theorem formatBits_bytes (fuel : Nat) :
    ∀ (u : Nat) (acc : GoString), u < 10 ^ (fuel + 1) → (∀ b ∈ acc, b < 256) →
      ∀ b ∈ formatBits fuel u acc, b < 256 := by
  induction fuel with
  | zero =>
    intro u acc h10 hacc b hb
    have hu : u < 10 := by simpa using h10
    rw [formatBits] at hb
    rcases List.mem_cons.mp hb with h | h
    · omega
    · exact hacc b h
  | succ f ih =>
    intro u acc h10 hacc b hb
    rw [formatBits] at hb
    by_cases hu : u ≥ 10
    · have hdiv : u / 10 < 10 ^ (f + 1) := by
        rw [Nat.div_lt_iff_lt_mul (by omega)]
        rw [pow_succ] at h10
        exact h10
      have hmod : u % 10 < 10 := Nat.mod_lt _ (by omega)
      rw [if_pos hu] at hb
      refine ih (u / 10) _ hdiv ?_ b hb
      intro x hx
      rcases List.mem_cons.mp hx with h | h
      · omega
      · exact hacc x h
    · rw [if_neg hu] at hb
      rcases List.mem_cons.mp hb with h | h
      · omega
      · exact hacc b h

theorem FormatUint_bytes (u : Nat) (hu : u < 2 ^ 64) : ∀ b ∈ FormatUint u, b < 256 :=
  formatBits_bytes 64 u [] (lt_trans hu (by norm_num)) (by simp)

/-- The query `RequestData` encodes: the three settings, sorted by key. -/
theorem requestURL_RawQuery (addr req : GoString) (fromID epoch : Nat) :
    (requestURL addr req fromID epoch).RawQuery
      = encodePairs [(DataRequestEpoch, FormatUint epoch), (DataRequestReq, req),
          (DataRequestTaskID, FormatUint fromID)] := rfl

/-- The handler reads back, from the URL that `RequestData` builds, the three values that
`RequestData` put in. -/
theorem Query_requestURL (addr req : GoString) (fromID epoch : Nat)
    (hfrom : fromID < 2 ^ 64) (hepoch : epoch < 2 ^ 64) (hreq : ∀ b ∈ req, b < 256) :
    Query (requestURL addr req fromID epoch).RawQuery
      = [(DataRequestEpoch, FormatUint epoch), (DataRequestReq, req),
          (DataRequestTaskID, FormatUint fromID)] := by
  rw [requestURL_RawQuery]
  apply Query_encodePairs
  intro p hp
  simp only [List.mem_cons, List.mem_singleton, List.not_mem_nil, or_false] at hp
  have k1 : ∀ b ∈ DataRequestEpoch, b < 256 := by decide
  have k2 : ∀ b ∈ DataRequestReq, b < 256 := by decide
  have k3 : ∀ b ∈ DataRequestTaskID, b < 256 := by decide
  rcases hp with h | h | h
  · subst h
    exact ⟨k1, FormatUint_bytes epoch hepoch⟩
  · subst h
    exact ⟨k2, hreq⟩
  · subst h
    exact ⟨k3, FormatUint_bytes fromID hfrom⟩

/-- C7: for requester slot `fromID`, target slot `toID` and epoch `epoch` (all `uint64`) and
every request string `req`, when the URL built by `RequestData` is served by `ServeHTTP`
whose `getData` returns bytes `X` with no error for `(fromID, epoch, req)`: the decimal
strings of `fromID` and `epoch` parse back to the same numbers, `req` is read back from the
query unchanged, `getData` is called exactly once, with `(fromID, epoch, req)`, the response
has status 200 and body `X`, and `RequestData` returns
`DataResponse{TaskID: toID, Epoch: epoch, Req: req, Data: X}`. -/
theorem data_request_round_trip (getData : getDataFunc) (addr req X : GoString)
    (fromID toID epoch : Nat) (hfrom : fromID < 2 ^ 64) (hepoch : epoch < 2 ^ 64)
    (hreq : ∀ b ∈ req, b < 256) (hX : getData fromID epoch req = some X) :
    ParseUint (FormatUint fromID) = some fromID ∧
    ParseUint (FormatUint epoch) = some epoch ∧
    Values.Get (Query (requestURL addr req fromID epoch).RawQuery) DataRequestReq = req ∧
    ServeHTTP getData (requestURL addr req fromID epoch)
      = { calls := [(fromID, epoch, req)], served := .response 200 X } ∧
    RequestData (ServeHTTP getData) addr req fromID toID epoch
      = some { TaskID := toID, Epoch := epoch, Req := req, Data := X } := by
  have hq := Query_requestURL addr req fromID epoch hfrom hepoch hreq
  have hpf := ParseUint_FormatUint fromID hfrom
  have hpe := ParseUint_FormatUint epoch hepoch
  have hpath : (requestURL addr req fromID epoch).Path = DataRequestPrefix := rfl
  have g1 : Values.Get [(DataRequestEpoch, FormatUint epoch), (DataRequestReq, req),
      (DataRequestTaskID, FormatUint fromID)] DataRequestTaskID = FormatUint fromID := by
    simp [Values.Get, show DataRequestEpoch ≠ DataRequestTaskID by decide,
      show DataRequestReq ≠ DataRequestTaskID by decide]
  have g2 : Values.Get [(DataRequestEpoch, FormatUint epoch), (DataRequestReq, req),
      (DataRequestTaskID, FormatUint fromID)] DataRequestEpoch = FormatUint epoch := by
    simp [Values.Get]
  have g3 : Values.Get [(DataRequestEpoch, FormatUint epoch), (DataRequestReq, req),
      (DataRequestTaskID, FormatUint fromID)] DataRequestReq = req := by
    simp [Values.Get, show DataRequestEpoch ≠ DataRequestReq by decide]
  have hserve : ServeHTTP getData (requestURL addr req fromID epoch)
      = { calls := [(fromID, epoch, req)], served := .response 200 X } := by
    unfold ServeHTTP
    simp only [hpath, ne_eq, not_true_eq_false, if_false, hq, g1, g2, g3, hpf, hpe, hX]
  refine ⟨hpf, hpe, by rw [hq, g3], hserve, ?_⟩
  unfold RequestData
  rw [hserve]
  simp

/-- A witness of C7: slot 0 asks slot 1 for `"request"` at epoch 0 and is served
`"response"`. -/
theorem data_request_round_trip_witness :
    ParseUint (FormatUint 0) = some 0 ∧
    ParseUint (FormatUint 0) = some 0 ∧
    Values.Get (Query (requestURL (ascii "127.0.0.1:8080") (ascii "request") 0 0).RawQuery)
      DataRequestReq = ascii "request" ∧
    ServeHTTP (fun _ _ _ => some (ascii "response"))
        (requestURL (ascii "127.0.0.1:8080") (ascii "request") 0 0)
      = { calls := [(0, 0, ascii "request")], served := .response 200 (ascii "response") } ∧
    RequestData (ServeHTTP (fun _ _ _ => some (ascii "response"))) (ascii "127.0.0.1:8080")
        (ascii "request") 0 1 0
      = some { TaskID := 1, Epoch := 0, Req := ascii "request", Data := ascii "response" } :=
  data_request_round_trip (fun _ _ _ => some (ascii "response")) (ascii "127.0.0.1:8080")
    (ascii "request") (ascii "response") 0 1 0 (by decide) (by decide) (by decide) rfl

/-- C8 as stated fails: on the request `GET /datareq` without any query parameter the
handler leaves through `logger.Panic`; it writes no response, so no status 400. -/
theorem ServeHTTP_missing_parameters_panics :
    (ServeHTTP (fun _ _ _ => some [])
        { Scheme := ascii "http", Host := ascii "127.0.0.1:8080", Path := DataRequestPrefix,
          RawQuery := [] }).served
      = .panicked "Internal error: fromID couldn't be parsed" ∧
    ∀ body, (ServeHTTP (fun _ _ _ => some [])
        { Scheme := ascii "http", Host := ascii "127.0.0.1:8080", Path := DataRequestPrefix,
          RawQuery := [] }).served ≠ .response 400 body := by
  have h : (ServeHTTP (fun _ _ _ => some [])
        { Scheme := ascii "http", Host := ascii "127.0.0.1:8080", Path := DataRequestPrefix,
          RawQuery := [] }).served
      = .panicked "Internal error: fromID couldn't be parsed" := by decide
  refine ⟨h, ?_⟩
  intro body hb
  rw [h] at hb
  cases hb

theorem Get_missing (m : Values) (key : GoString) (h : ∀ p ∈ m, p.1 ≠ key) :
    Values.Get m key = [] := by
  induction m with
  | nil => rfl
  | cons p rest ih =>
    obtain ⟨k, v⟩ := p
    have hk : k ≠ key := h (k, v) (List.mem_cons_self _ _)
    rw [Values.Get, if_neg hk]
    exact ih (fun q hq => h q (List.mem_cons_of_mem _ hq))

/-- C8 amended: on a request to the path `/datareq` whose `taskID` or `epoch` query
parameter is missing (no setting of the parsed query has that key) or is rejected by
`strconv.ParseUint(·, 0, 64)`, `ServeHTTP` does not call `getData`, writes no response and
leaves through `logger.Panic`. -/
theorem ServeHTTP_bad_parameter (getData : getDataFunc) (u : URL)
    (hpath : u.Path = DataRequestPrefix)
    (hbad : (∀ p ∈ Query u.RawQuery, p.1 ≠ DataRequestTaskID) ∨
      ParseUint (Values.Get (Query u.RawQuery) DataRequestTaskID) = none ∨
      (∀ p ∈ Query u.RawQuery, p.1 ≠ DataRequestEpoch) ∨
      ParseUint (Values.Get (Query u.RawQuery) DataRequestEpoch) = none) :
    (ServeHTTP getData u).calls = [] ∧ ∃ msg, (ServeHTTP getData u).served = .panicked msg := by
  have hbad1 : ParseUint (Values.Get (Query u.RawQuery) DataRequestTaskID) = none ∨
      ParseUint (Values.Get (Query u.RawQuery) DataRequestEpoch) = none := by
    rcases hbad with h | h | h | h
    · left
      rw [Get_missing _ _ h]
      rfl
    · exact Or.inl h
    · right
      rw [Get_missing _ _ h]
      rfl
    · exact Or.inr h
  unfold ServeHTTP
  rw [if_neg (by simp [hpath])]
  rcases hbad1 with h | h
  · simp [h]
  · cases h1 : ParseUint (Values.Get (Query u.RawQuery) DataRequestTaskID) with
    | none => simp [h1]
    | some fromID => simp [h1, h]

/-- A witness of C8 amended: `GET /datareq?taskID=1&epoch=x`. -/
theorem ServeHTTP_bad_parameter_witness :
    (ServeHTTP (fun _ _ _ => some (ascii "data"))
        { Scheme := ascii "http", Host := ascii "127.0.0.1:8080", Path := DataRequestPrefix,
          RawQuery := ascii "taskID=1&epoch=x" }).calls = [] ∧
    ∃ msg, (ServeHTTP (fun _ _ _ => some (ascii "data"))
        { Scheme := ascii "http", Host := ascii "127.0.0.1:8080", Path := DataRequestPrefix,
          RawQuery := ascii "taskID=1&epoch=x" }).served = .panicked msg :=
  ServeHTTP_bad_parameter (fun _ _ _ => some (ascii "data"))
    { Scheme := ascii "http", Host := ascii "127.0.0.1:8080", Path := DataRequestPrefix,
      RawQuery := ascii "taskID=1&epoch=x" } rfl (Or.inr (Or.inr (Or.inr (by decide))))

end frameworkhttp

namespace controller

theorem DeleteRecursive_root (s : Store) : Store.DeleteRecursive s [] = [] := by
  unfold Store.DeleteRecursive
  rw [List.filter_eq_nil_iff]
  intro p _
  simp

/-- The delete of `DestroyEtcdLayout` is issued and the store replaced before the send, and
stays done when the send blocks. -/
theorem Stop_world_after_delete (c : Controller) (w : World) :
    (Stop c w).world.store = (c.etcdclient.Delete w.store [] true).1 ∧
    ∃ rest, (Stop c w).world.effects = w.effects ++ Effect.storeDelete [] true :: rest := by
  unfold Stop stopFailureDetection DestroyEtcdLayout
  cases h : send c.failDetectStop true with
  | stored ch => exact ⟨by simp, [Effect.stopSignal], by simp⟩
  | blockedNil => exact ⟨by simp, [], by simp⟩
  | blockedFull => exact ⟨by simp, [], by simp⟩

/-- C9 as stated fails: with a key of another job in the store and a store client that
deletes as the spec's `DeleteRecursive`, `Stop` of the controller of job `job`, started so
that its stop channel is the one of line 67, deletes the store before it signals the failure
detector to stop, and the key of the other job, present with value `3` before, is absent
afterwards. -/
theorem Stop_deletes_foreign_key :
    (Stop { name := "job", etcdclient := specClient, numOfTasks := 2,
            failDetectStop := some (makeChan 1) }
      { store := [(["other", "epoch"], "3"), (["job", "epoch"], "0")],
        effects := [] }).world.effects
      = [Effect.storeDelete [] true, Effect.stopSignal] ∧
    ¬ (∀ key, ¬ underJob "job" key →
      Store.get (Stop { name := "job", etcdclient := specClient, numOfTasks := 2,
                        failDetectStop := some (makeChan 1) }
        { store := [(["other", "epoch"], "3"), (["job", "epoch"], "0")],
          effects := [] }).world.store key
        = Store.get [(["other", "epoch"], "3"), (["job", "epoch"], "0")] key) := by
  refine ⟨by decide, ?_⟩
  intro h
  have h1 := h ["other", "epoch"] (by decide)
  revert h1
  decide

/-- C9 amended: `Controller.Stop` first calls `DestroyEtcdLayout`, which hands the store
client one recursive delete at the root `/` and whose error `Stop` discards, and only then
sends the stop signal on `failDetectStop`. The store after `Stop` is the one the client's
delete left. With room in the channel (as `make(chan bool, 1)` leaves it) `Stop` returns
nil, whatever the delete reported, with the signal stored in the channel; on a nil channel
(a controller that was never started) `Stop` blocks forever, the delete already issued.
When the client carries out the delete as the spec's `DeleteRecursive` without error, no
key is present in the store afterwards, under the job's namespace or outside it. -/
theorem Stop_effects (c : Controller) (w : World) :
    (Stop c w).world.store = (c.etcdclient.Delete w.store [] true).1 ∧
    (∀ ch, c.failDetectStop = some ch → ch.buf.length < ch.cap →
      (Stop c w).outcome = Outcome.returned none ∧
      (Stop c w).controller.failDetectStop = some { ch with buf := ch.buf ++ [true] } ∧
      (Stop c w).world.effects
        = w.effects ++ [Effect.storeDelete [] true, Effect.stopSignal]) ∧
    (c.failDetectStop = none →
      (Stop c w).outcome = Outcome.blockedForever ∧
      (Stop c w).controller.failDetectStop = none ∧
      (Stop c w).world.effects = w.effects ++ [Effect.storeDelete [] true]) ∧
    (c.etcdclient.Delete w.store [] true = (Store.DeleteRecursive w.store [], none) →
      ∀ key, Store.get (Stop c w).world.store key = none) := by
  have hstore := (Stop_world_after_delete c w).1
  refine ⟨hstore, ?_, ?_, ?_⟩
  · intro ch hch hroom
    have hs : send c.failDetectStop true = Sent.stored { ch with buf := ch.buf ++ [true] } := by
      simp [send, hch, hroom]
    simp [Stop, stopFailureDetection, DestroyEtcdLayout, hs]
  · intro hnil
    have hs : send c.failDetectStop true = Sent.blockedNil := by
      simp [send, hnil]
    unfold Stop stopFailureDetection DestroyEtcdLayout
    simp only [hs]
    exact ⟨trivial, hnil, trivial⟩
  · intro hdel key
    rw [hstore, hdel, DeleteRecursive_root]
    rfl

/-- A witness of C9 amended. A started controller of job `job` on the spec's store client:
`Stop` returns nil and the key `job/epoch` is gone. A controller made by `New` and never
started: `Stop` blocks forever. A client whose delete fails and leaves the store as it is:
`Stop` returns nil all the same and the key is still there. -/
theorem Stop_effects_witness :
    (Stop { name := "job", etcdclient := specClient, numOfTasks := 2,
            failDetectStop := some (makeChan 1) }
      { store := [(["other", "epoch"], "3"), (["job", "epoch"], "0")],
        effects := [] }).outcome = Outcome.returned none ∧
    Store.get (Stop { name := "job", etcdclient := specClient, numOfTasks := 2,
                      failDetectStop := some (makeChan 1) }
      { store := [(["other", "epoch"], "3"), (["job", "epoch"], "0")],
        effects := [] }).world.store ["job", "epoch"] = none ∧
    (Stop (New "job" specClient 2)
      { store := [(["job", "epoch"], "0")], effects := [] }).outcome
      = Outcome.blockedForever ∧
    (Stop { name := "job",
            etcdclient := { Delete := fun s _ _ => (s, some "Root is read only") },
            numOfTasks := 2, failDetectStop := some (makeChan 1) }
      { store := [(["job", "epoch"], "0")], effects := [] }).outcome
      = Outcome.returned none ∧
    (Stop { name := "job",
            etcdclient := { Delete := fun s _ _ => (s, some "Root is read only") },
            numOfTasks := 2, failDetectStop := some (makeChan 1) }
      { store := [(["job", "epoch"], "0")], effects := [] }).world.store
      = [(["job", "epoch"], "0")] :=
  ⟨((Stop_effects _ _).2.1 (makeChan 1) rfl (by decide)).1,
    (Stop_effects _ _).2.2.2 rfl ["job", "epoch"],
    ((Stop_effects (New "job" specClient 2) _).2.2.1 rfl).1,
    ((Stop_effects _ _).2.1 (makeChan 1) rfl (by decide)).1,
    (Stop_effects _ _).1⟩

end controller
